import Mathlib

/-!
PortForward: a verification development.

A shallow embedding of the Go sources `main.go`, `forward.go` and `udp.go`
of the port forwarder, followed by theorems about the embedded functions.

Conventions of the embedding.

* A Go `string` is the list of its UTF-8 decoding steps (`GoStr`): every element
  is a code point, and a byte that does not decode is an element above
  `0x10FFFF`.  The separator `:` is one byte that never occurs inside a longer
  encoding, so splitting the list is splitting the bytes.
* A byte slice is a list of numbers.
* An `error` is `Option GoStr`: `none` is `nil`, `some msg` is `errors.New(msg)`.
* Goroutines and channels are made explicit: a driver or listener is a step
  function over the events its `select` can take, and what it does to the
  outside (calls on streams, channel sends, goroutines started) is recorded
  as a list of actions.
-/

set_option autoImplicit false

namespace PortForward

/-! ## Strings -/

/-- A Go rune (code point); values above `0x10FFFF` stand for an undecodable byte. -/
abbrev Rune := Nat

/-- A Go string as the sequence of its runes. -/
abbrev GoStr := List Rune

/-- The Go string with the characters of a literal. -/
def str (s : String) : GoStr := s.toList.map Char.toNat

/-- Go `unicode.ToUpper`, as far as a comparison with an ASCII word can see it:
the ASCII branch is the library's; the only other runes whose upper case is
ASCII are U+0131 (dotless i, upper case `I`) and U+017F (long s, upper case
`S`); an undecodable byte becomes U+FFFD under `strings.Map`; every remaining
rune has an upper case outside ASCII and is left as it is. -/
def unicode.ToUpper (r : Nat) : Nat :=
  if r ≤ 0x7F then
    if 0x61 ≤ r ∧ r ≤ 0x7A then r - 0x20 else r
  else if r = 0x131 then 0x49
  else if r = 0x17F then 0x53
  else if 0x10FFFF < r then 0xFFFD
  else r

namespace strings

/-- Go `strings.ToUpper`: every rune mapped to its upper case. -/
def ToUpper (s : GoStr) : GoStr := s.map unicode.ToUpper

/-- Go `strings.Index` for a one-byte separator: position of its first
occurrence, `none` for the library's `-1`. -/
def Index : GoStr → Rune → Option Nat
  | [], _ => none
  | c :: cs, sep => if c = sep then some 0 else (Index cs sep).map (· + 1)

/-- Loop of the library's `genSplit`: at most `n` further cuts. -/
def splitLoop (sep : Rune) : Nat → GoStr → List GoStr
  | 0, s => [s]
  | n + 1, s =>
    match Index s sep with
    | none => [s]
    | some m => s.take m :: splitLoop sep n (s.drop (m + 1))

/-- Go `strings.SplitN(s, sep, n)` for a one-byte separator and `n ≥ 0`:
`genSplit` with its clamp of `n` to `len(s) + 1`. The clamp changes the result
for the empty string only, whose length is 0 in bytes and in runes. -/
def SplitN (s : GoStr) (sep : Rune) (n : Nat) : List GoStr :=
  if n = 0 then []
  else splitLoop sep (min n (s.length + 1) - 1) s

end strings

/-! ## Constants of `forward.go` -/

def PORTFORWARD_PROTO_NIL : Nat := 0x00
def PORTFORWARD_PROTO_TCP : Nat := 0x10
def PORTFORWARD_PROTO_UDP : Nat := 0x20
def PORTFORWARD_SOCK_NIL : Nat := 0x00
def PORTFORWARD_SOCK_LISTEN : Nat := 0x01
def PORTFORWARD_SOCK_CONN : Nat := 0x02

/-! ## `main.go` -/

/-- The colon, the separator of `parseSock`. -/
def colon : Nat := 0x3A

/-- Go `parseSock(sock string) (uint8, string, error)`. -/
def parseSock (sock : GoStr) : Nat × GoStr × Option GoStr :=
  match strings.SplitN sock colon 2 with
  | [method, address] =>
    if strings.ToUpper method = str "LISTEN" then
      (PORTFORWARD_SOCK_LISTEN, address, none)
    else if strings.ToUpper method = str "CONN" then
      (PORTFORWARD_SOCK_CONN, address, none)
    else
      (PORTFORWARD_SOCK_NIL, [], some (str "unknown method [" ++ method ++ str "]"))
  | _ =>
    (PORTFORWARD_SOCK_NIL, [], some (str "host format must [method:address:port]"))

/-! ### Words of the specification about `parseSock` -/

/-- Lower case of an ASCII letter, every other rune unchanged. -/
def asciiLower (r : Nat) : Nat :=
  if 0x41 ≤ r ∧ r ≤ 0x5A then r + 0x20 else r

/-- The specification's "m equals w ignoring case", for a word `w` of ASCII
letters: the two agree once ASCII letters are put in one case. -/
def EqIgnoreCase (m w : GoStr) : Prop := m.map asciiLower = w.map asciiLower

instance (m w : GoStr) : Decidable (EqIgnoreCase m w) := by
  unfold EqIgnoreCase; infer_instance

/-- Case folding as `parseSock` performs it: `asciiLower`, and U+0131 counts as
`i`, U+017F as `s`. -/
def goFold (r : Nat) : Nat :=
  if 0x41 ≤ r ∧ r ≤ 0x5A then r + 0x20
  else if r = 0x131 then 0x69
  else if r = 0x17F then 0x73
  else r

/-- The relation "m equals w ignoring case" with the two extra spellings of `goFold`. -/
def EqGoFold (m w : GoStr) : Prop := m.map goFold = w.map goFold

instance (m w : GoStr) : Decidable (EqGoFold m w) := by
  unfold EqGoFold; infer_instance

/-- The text of `s` before its first colon (all of `s` when it has none). -/
def beforeColon (s : GoStr) : GoStr := s.takeWhile (· ≠ colon)

/-! ## `log.go` -/

def LOG_LEVEL_NONE : Nat := 0
def LOG_LEVEL_FATAL : Nat := 1
def LOG_LEVEL_ERROR : Nat := 2
def LOG_LEVEL_WARN : Nat := 3
def LOG_LEVEL_INFO : Nat := 4
def LOG_LEVEL_DEBUG : Nat := 5

/-- The initial value of the package variable `LOG_LEVEL`; nothing assigns it. -/
def LOG_LEVEL_DEFAULT : Nat := LOG_LEVEL_DEBUG

/-- Go `LogError(format, a...)`, as the lines it prints: `LOG_LEVEL` is the
value of the package variable, `now` the text of `getCurrentTime()` and `msg`
the text of `fmt.Sprintf(format, a...)`. -/
def LogError (LOG_LEVEL : Nat) (now msg : GoStr) : List GoStr :=
  if LOG_LEVEL < LOG_LEVEL_WARN then []
  else [str "[" ++ now ++ str "] [ERROR] " ++ msg]

/-! ## `forward.go` -/

/-- A non-nil value of the Go interface `Conn`, by its identity; a `Conn` that
may be `nil` is an `Option Conn`. -/
abbrev Conn := Nat

/-- Go `Args`. -/
structure Args where
  Protocol : Nat
  Method1 : Nat
  Addr1 : GoStr
  Method2 : Nat
  Addr2 : GoStr
deriving DecidableEq, Repr

/-- What a driver does to the outside, in program order. -/
inductive Act where
  /-- Go `LogInfo(format, ...)` -/
  | LogInfo (format : String)
  /-- Go `LogWarn(format, ...)` -/
  | LogWarn (format : String)
  /-- Go `LogError(format, ...)` -/
  | LogError (format : String)
  /-- Go `go ListenTCP(addr, clientc, quit)` for listener `k` -/
  | ListenTCP (k : Nat) (addr : GoStr)
  /-- Go `go ListenUDP(addr, clientc, quit)` for listener `k` -/
  | ListenUDP (k : Nat) (addr : GoStr)
  /-- Go `quit <- true` on the quit channel of listener `k` -/
  | quit (k : Nat)
  /-- Go `stop <- true` -/
  | stopSend
  /-- Go `ConnTCP(addr)` -/
  | ConnTCP (addr : GoStr)
  /-- Go `ConnUDP(addr)` -/
  | ConnUDP (addr : GoStr)
  /-- Go `sock.RemoteAddr()` -/
  | RemoteAddr (sock : Option Conn)
  /-- Go `sock.Close()` -/
  | Close (sock : Option Conn)
  /-- Go `sock.Read(buf)` with a buffer of `len` bytes -/
  | Read (sock : Option Conn) (len : Nat)
  /-- Go `sock.Write(b)` -/
  | Write (sock : Option Conn) (b : List Nat)
  /-- Go `time.Sleep(seconds * time.Second)` -/
  | Sleep (seconds : Nat)
  /-- Go `go ConnectSock(id, sock1, sock2)` -/
  | ConnectSock (id : Nat) (sock1 sock2 : Option Conn)
  /-- A slice expression out of range, which ends the goroutine. -/
  | outOfRange
  /-- Go `sock.SetDeadline(time.Now().Add(seconds * time.Second))` -/
  | SetDeadline (sock : Option Conn) (seconds : Nat)
deriving DecidableEq, Repr

/-- The driver a call of `Launch` runs, with its arguments. -/
inductive DriverCall where
  | ConnConn (proto : Nat) (addr1 addr2 : GoStr)
  | ListenConn (proto : Nat) (addr1 addr2 : GoStr)
  | ListenListen (proto : Nat) (addr1 addr2 : GoStr)
deriving DecidableEq, Repr

/-- Outcome of `Launch`: the capacity of the `stop` channel it makes, the
driver it runs (if any) and the lines it prints itself. -/
structure Launched where
  stopCap : Nat
  driver : Option DriverCall
  printed : List GoStr
deriving DecidableEq, Repr

/-- Go `Launch(args Args)`. -/
def Launch (LOG_LEVEL : Nat) (now : GoStr) (args : Args) : Launched :=
  if args.Method1 = PORTFORWARD_SOCK_CONN ∧ args.Method2 = PORTFORWARD_SOCK_CONN then
    ⟨3, some (.ConnConn args.Protocol args.Addr1 args.Addr2), []⟩
  else if args.Method1 = PORTFORWARD_SOCK_CONN ∧ args.Method2 = PORTFORWARD_SOCK_LISTEN then
    ⟨3, some (.ListenConn args.Protocol args.Addr2 args.Addr1), []⟩
  else if args.Method1 = PORTFORWARD_SOCK_LISTEN ∧ args.Method2 = PORTFORWARD_SOCK_CONN then
    ⟨3, some (.ListenConn args.Protocol args.Addr1 args.Addr2), []⟩
  else if args.Method1 = PORTFORWARD_SOCK_LISTEN ∧ args.Method2 = PORTFORWARD_SOCK_LISTEN then
    ⟨3, some (.ListenListen args.Protocol args.Addr1 args.Addr2), []⟩
  else
    ⟨3, none, LogError LOG_LEVEL now (str "unknown forward method")⟩

/-! ### `ListenListen` -/

/-- The cases of the `select` of `ListenListen`. -/
inductive LLEvent where
  /-- Go `<-stop` -/
  | stop
  /-- Go `sock1 = <-clientc1`; `none` is the `nil` a failed listener sends -/
  | client1 (c : Option Conn)
  /-- Go `sock2 = <-clientc2` -/
  | client2 (c : Option Conn)
  /-- Go `<-time.After(120 * time.Second)` -/
  | timeout
deriving DecidableEq, Repr

/-- The variables of `ListenListen` that live across iterations. -/
structure LLState where
  sock1 : Option Conn
  sock2 : Option Conn
  count : Nat
deriving DecidableEq, Repr

/-- The closure `release` of `ListenListen`. -/
def release (s1 s2 : Option Conn) : List Act :=
  (if s1 ≠ none then [Act.Close s1] else []) ++
  (if s2 ≠ none then [Act.Close s2] else [])

/-- The end of an iteration of `ListenListen`, after the `select`. -/
def ListenListen.pair (st : LLState) : LLState × List Act :=
  if st.sock1 = none ∨ st.sock2 = none then (st, [])
  else ({ sock1 := none, sock2 := none, count := st.count + 1 },
        [Act.ConnectSock st.count st.sock1 st.sock2])

/-- One iteration of the loop of `ListenListen` on the event its `select`
takes: the variables afterwards (`none` when the function returned) and the
actions of the iteration. -/
def ListenListen.iter (st : LLState) : LLEvent → Option LLState × List Act
  | .stop => (none, [Act.quit 1, Act.quit 2] ++ release st.sock1 st.sock2)
  | .client1 c =>
    let st1 := { st with sock1 := c }
    if c = none then (some st1, [Act.stopSend])
    else
      let r := ListenListen.pair st1
      (some r.1, [Act.RemoteAddr c, Act.LogInfo "A point(link%d) [%s] is ready"] ++ r.2)
  | .client2 c =>
    let st1 := { st with sock2 := c }
    if c = none then (some st1, [Act.stopSend])
    else
      let r := ListenListen.pair st1
      (some r.1, [Act.RemoteAddr c, Act.LogInfo "B point(link%d) [%s] is ready"] ++ r.2)
  | .timeout =>
    (some st, [Act.LogWarn "socket wait timeout, reset"] ++ release st.sock1 st.sock2)

/-- The loop of `ListenListen` over the events taken, from given variables. -/
def ListenListen.loop (st : LLState) : List LLEvent → Option LLState × List Act
  | [] => (some st, [])
  | e :: es =>
    match ListenListen.iter st e with
    | (none, acts) => (none, acts)
    | (some st1, acts) =>
      let r := ListenListen.loop st1 es
      (r.1, acts ++ r.2)

/-- The variables of `ListenListen` on entry to its loop. -/
def ListenListen.init : LLState := { sock1 := none, sock2 := none, count := 1 }

/-- Go `ListenListen(proto, addr1, addr2)` run on a sequence of events. -/
def ListenListen (proto : Nat) (addr1 addr2 : GoStr) (events : List LLEvent) : List Act :=
  let sockfoo := fun k addr =>
    if proto = PORTFORWARD_PROTO_UDP then Act.ListenUDP k addr else Act.ListenTCP k addr
  [Act.LogInfo "listen A point with sock1 [%s]", sockfoo 1 addr1,
   Act.LogInfo "listen B point with sock2 [%s]", sockfoo 2 addr2] ++
  (ListenListen.loop ListenListen.init events).2

/-- The pairs handed to `ConnectSock`, in order. -/
def splicedPairs : List Act → List (Option Conn × Option Conn)
  | [] => []
  | Act.ConnectSock _ s1 s2 :: acts => (s1, s2) :: splicedPairs acts
  | _ :: acts => splicedPairs acts

/-- The arrival of a client on side A or side B of `ListenListen`. -/
inductive Arrival where
  | A (c : Conn)
  | B (c : Conn)
deriving DecidableEq, Repr

/-- The event of the `select` for an arrival. -/
def Arrival.event : Arrival → LLEvent
  | .A c => .client1 (some c)
  | .B c => .client2 (some c)

/-- The clients that arrived on side A, in order. -/
def arrivalsA : List Arrival → List Conn
  | [] => []
  | .A c :: es => c :: arrivalsA es
  | .B _ :: es => arrivalsA es

/-- The clients that arrived on side B, in order. -/
def arrivalsB : List Arrival → List Conn
  | [] => []
  | .A _ :: es => arrivalsB es
  | .B c :: es => c :: arrivalsB es

/-- The pairing the specification calls strictly FIFO: the k-th A-side client
with the k-th B-side client. -/
def fifoPairs (es : List Arrival) : List (Option Conn × Option Conn) :=
  (List.zip (arrivalsA es) (arrivalsB es)).map (fun p => (some p.1, some p.2))

/-- No client arrives on a side that still holds an unpaired client: after
every prefix of the arrivals the two sides differ by at most one arrival. -/
def Balanced (es : List Arrival) : Prop :=
  ∀ k, k ≤ es.length →
    (arrivalsA (es.take k)).length ≤ (arrivalsB (es.take k)).length + 1 ∧
    (arrivalsB (es.take k)).length ≤ (arrivalsA (es.take k)).length + 1

instance (es : List Arrival) : Decidable (Balanced es) := by
  unfold Balanced; infer_instance

/-! ### `ConnConn` -/

/-- Go `ConnTCP(address)`, with what its `net.DialTimeout` answers: the result
and the actions of the call. -/
def ConnTCP (address : GoStr) (dial : Except GoStr Conn) : Except GoStr Conn × List Act :=
  (dial, [Act.ConnTCP address])

/-- Go `ConnUDP(address)`, with what its `net.DialTimeout` answers and the
error of its write of the knock: the result and the actions of the call. On a connection it dials it writes the knock, the one byte 0x00, and
after a knock that went through it sets the deadline of 60 seconds and returns
the connection. -/
def ConnUDP (address : GoStr) (dial : Except GoStr Conn) (knockErr : Option GoStr) :
    Except GoStr Conn × List Act :=
  match dial with
  | .error e => (.error e, [Act.ConnUDP address])
  | .ok conn =>
    match knockErr with
    | some e => (.error e, [Act.ConnUDP address, Act.Write (some conn) [0x00]])
    | none =>
      (.ok conn, [Act.ConnUDP address, Act.Write (some conn) [0x00],
        Act.SetDeadline (some conn) 60])

/-- What the outside answers during one iteration of `ConnConn`. -/
structure CCWorld where
  /-- A value is ready on `stop`. -/
  stop : Bool
  /-- What `net.DialTimeout` answers in `sockfoo(addr1)`. -/
  dial1 : Except GoStr Conn
  /-- The error of the knock write in `sockfoo(addr1)`, when that is `ConnUDP`. -/
  knock1 : Option GoStr
  /-- Go `sock1.Read(buf)`: from the buffer passed, the buffer afterwards, `n` and `err` -/
  read1 : List Nat → List Nat × Int × Option GoStr
  /-- What `net.DialTimeout` answers in `sockfoo(addr2)`. -/
  dial2 : Except GoStr Conn
  /-- The error of the knock write in `sockfoo(addr2)`, when that is `ConnUDP`. -/
  knock2 : Option GoStr
  /-- Go `sock2.Write(buf)`: `n` and `err` -/
  write2 : List Nat → Int × Option GoStr

/-- Go `make([]byte, 32 * 1024)`, the buffer of the first read. -/
def ConnConn.newBuf : List Nat := List.replicate (32 * 1024) 0

/-- How an iteration of `ConnConn` ends. -/
inductive CCNext where
  /-- The function returned. -/
  | returned
  /-- The loop goes on with this value of `count`. -/
  | next (count : Nat)
  /-- The goroutine ended on a slice expression out of range. -/
  | crashed
deriving DecidableEq, Repr

/-- One iteration of the loop of `ConnConn`. The actions of a dial are those
of `ConnTCP` or `ConnUDP`, the knock of `ConnUDP` among them. -/
def ConnConn.iter (proto : Nat) (addr1 addr2 : GoStr) (count : Nat) (w : CCWorld) :
    CCNext × List Act :=
  let sockfoo := fun addr dial knockErr =>
    if proto = PORTFORWARD_PROTO_UDP then ConnUDP addr dial knockErr else ConnTCP addr dial
  if w.stop then (.returned, [])
  else
    let d1 := sockfoo addr1 w.dial1 w.knock1
    let acts0 := [Act.LogInfo "dial A point with sock1 [%s]"] ++ d1.2
    match d1.1 with
    | .error _ => (.next count, acts0 ++ [Act.LogError "%s", Act.Sleep 16])
    | .ok sock1 =>
      let acts1 := acts0 ++ [Act.LogInfo "A point(sock1) is ready",
        Act.Read (some sock1) (32 * 1024)]
      let r := w.read1 ConnConn.newBuf
      if r.2.2 ≠ none then (.next count, acts1 ++ [Act.LogError "A point: %s"])
      else if r.2.1 < 0 ∨ 32 * 1024 < r.2.1 then (.crashed, acts1 ++ [Act.outOfRange])
      else
        let buf := r.1.take r.2.1.toNat
        let d2 := sockfoo addr2 w.dial2 w.knock2
        let acts2 := acts1 ++ [Act.LogInfo "dial B point with sock2 [%s]"] ++ d2.2
        match d2.1 with
        | .error _ =>
          (.next count, acts2 ++ [Act.Close (some sock1), Act.LogError "%s", Act.Sleep 16])
        | .ok sock2 =>
          let acts3 := acts2 ++ [Act.LogInfo "B point(sock2) is ready",
            Act.Write (some sock2) buf]
          if (w.write2 buf).2 ≠ none then (.next count, acts3 ++ [Act.LogError "B point: %s"])
          else (.next (count + 1), acts3 ++ [Act.ConnectSock count (some sock1) (some sock2)])

/-- The loop of `ConnConn` over the answers of the outside, one per iteration. -/
def ConnConn.loop (proto : Nat) (addr1 addr2 : GoStr) : Nat → List CCWorld → List Act
  | _, [] => []
  | count, w :: ws =>
    match ConnConn.iter proto addr1 addr2 count w with
    | (.next c, acts) => acts ++ ConnConn.loop proto addr1 addr2 c ws
    | (_, acts) => acts

/-- Go `ConnConn(proto, addr1, addr2)`. -/
def ConnConn (proto : Nat) (addr1 addr2 : GoStr) (ws : List CCWorld) : List Act :=
  ConnConn.loop proto addr1 addr2 1 ws

/-- The `Write` calls among some actions. -/
def writesOf (acts : List Act) : List Act :=
  acts.filter (fun a => match a with | Act.Write _ _ => true | _ => false)

/-- The `Write` calls on the stream `sock` among some actions. -/
def writesOn (sock : Option Conn) (acts : List Act) : List Act :=
  acts.filter (fun a => match a with | Act.Write s _ => decide (s = sock) | _ => false)

/-- The `Read` calls among some actions. -/
def readsOf (acts : List Act) : List Act :=
  acts.filter (fun a => match a with | Act.Read _ _ => true | _ => false)

/-! ## `udp.go` -/

/-- Go `UDPDistribute`. `Conn` is the socket of the listener, by its identity;
`Cache` is what the channel of capacity 16 holds, oldest first. -/
structure UDPDistribute where
  Established : Bool
  Conn : Nat
  RAddr : GoStr
  Cache : List (List Nat)
deriving DecidableEq, Repr

/-- Go `NewUDPDistribute(conn, addr)`, the value the new pointer points to. -/
def NewUDPDistribute (conn : Nat) (addr : GoStr) : UDPDistribute :=
  { Established := true, Conn := conn, RAddr := addr, Cache := [] }

/-- Capacity of the channel `Cache`, from `make(chan []byte, 16)`. -/
def cacheCap : Nat := 16

/-- A send on a channel of capacity 16 holding `cache`: what it holds
afterwards, `none` when the sender has to wait. -/
def chanSend (cache : List (List Nat)) (buf : List Nat) : Option (List (List Nat)) :=
  if cache.length < cacheCap then some (cache ++ [buf]) else none

/-- Go builtin `copy(dst, src)`: `dst` afterwards and the number of bytes copied. -/
def copy (dst src : List Nat) : List Nat × Nat :=
  (src.take dst.length ++ dst.drop src.length, min dst.length src.length)

/-- The message of the error of a closed pseudo-connection. -/
def errClosed : GoStr := str "udp distrubute has closed"

/-- The message of the error of a read that timed out. -/
def errTimeout : GoStr := str "udp distrubute read timeout"

/-- Go `(this *UDPDistribute) Close()`: the receiver afterwards and the error. -/
def UDPDistribute.Close (this : UDPDistribute) : UDPDistribute × Option GoStr :=
  ({ this with Established := false }, none)

/-- Outcome of a `Read`: the receiver and the buffer afterwards, `n` and `err`. -/
structure ReadResult where
  this : UDPDistribute
  b : List Nat
  n : Nat
  err : Option GoStr
deriving DecidableEq, Repr

/-- Go `(this *UDPDistribute) Read(b)`. With a datagram in `Cache` the receive
of the `select` is ready and the timer of 16 seconds is not; with none, the
outcome modelled is the timeout (a datagram that comes in time is a listener
step before this call). -/
def UDPDistribute.Read (this : UDPDistribute) (b : List Nat) : ReadResult :=
  if !this.Established then
    { this := this, b := b, n := 0, err := some errClosed }
  else
    match this.Cache with
    | [] => { this := this, b := b, n := 0, err := some errTimeout }
    | data :: rest =>
      { this := { this with Cache := rest }, b := (copy b data).1, n := data.length,
        err := none }

/-- Outcome of a `Write`: the datagram handed to `WriteTo` (destination and
payload) if any, `n` and `err`. -/
structure WriteResult where
  sent : Option (GoStr × List Nat)
  n : Int
  err : Option GoStr
deriving DecidableEq, Repr

/-- Go `(this *UDPDistribute) Write(b)`; `sock` is what
`this.Conn.WriteTo(b, this.RAddr)` returns when it is called. -/
def UDPDistribute.Write (this : UDPDistribute) (b : List Nat) (sock : Int × Option GoStr) :
    WriteResult :=
  if !this.Established then { sent := none, n := 0, err := some errClosed }
  else { sent := some (this.RAddr, b), n := sock.1, err := sock.2 }

/-- Go `(this *UDPDistribute) RemoteAddr()`. -/
def UDPDistribute.RemoteAddr (this : UDPDistribute) : GoStr := this.RAddr

/-- Go `table[k]` with its `ok`, on a map kept as a list of entries. -/
def mapGet : List (GoStr × Nat) → GoStr → Option Nat
  | [], _ => none
  | (k1, v) :: t, k => if k1 = k then some v else mapGet t k

/-- Go `delete(table, k)`. -/
def mapDelete (t : List (GoStr × Nat)) (k : GoStr) : List (GoStr × Nat) :=
  t.filter (fun e => e.1 ≠ k)

/-- Go `table[k] = v`. -/
def mapSet (t : List (GoStr × Nat)) (k : GoStr) (v : Nat) : List (GoStr × Nat) :=
  (k, v) :: mapDelete t k

/-- Assignment through a pointer: the heap with `d` at `p`. -/
def heapSet (h : Nat → Option UDPDistribute) (p : Nat) (d : UDPDistribute) :
    Nat → Option UDPDistribute :=
  fun q => if q = p then some d else h q

/-- The state of `ListenUDP` once its socket `serv` is bound, with the
pseudo-connections it made: `heap` sends a pointer to the `UDPDistribute` it
points to, `next` is the next pointer `NewUDPDistribute` returns, `table` is
the local map, and `sending` is the send `d.Cache <- buf` the loop waits in,
if it does. -/
structure UDPListener where
  serv : Nat
  heap : Nat → Option UDPDistribute
  next : Nat
  table : List (GoStr × Nat)
  sending : Option (Nat × List Nat)

/-- The state of `ListenUDP` on entry to its loop. -/
def ListenUDP.init (serv : Nat) : UDPListener :=
  { serv := serv, heap := fun _ => none, next := 0, table := [], sending := none }

/-- What one iteration of `ListenUDP` does with a datagram: the state
afterwards, the pseudo-connection whose `Cache` took the datagram, and the
pseudo-connection sent on `clientc`. -/
structure RecvOut where
  st : UDPListener
  enqueued : Option Nat
  emitted : Option Nat

/-- The last four statements of the loop of `ListenUDP`: a new
`UDPDistribute` for `addr`, entered in the table, given the datagram (its
channel is empty, the send does not wait) and sent on `clientc`. -/
def ListenUDP.newConn (st : UDPListener) (addr : GoStr) (buf : List Nat) : RecvOut :=
  let conn := NewUDPDistribute st.serv addr
  let p := st.next
  { st := { st with
      heap := heapSet st.heap p { conn with Cache := conn.Cache ++ [buf] }
      next := st.next + 1
      table := mapSet st.table addr p }
    enqueued := some p
    emitted := some p }

/-- One iteration of the loop of `ListenUDP` in which `serv.ReadFrom` returned
the datagram `buf` from `addr` (whose `String()` is the table key). -/
def ListenUDP.recv (st : UDPListener) (addr : GoStr) (buf : List Nat) : RecvOut :=
  match mapGet st.table addr with
  | some p =>
    match st.heap p with
    | some d =>
      if d.Established then
        match chanSend d.Cache buf with
        | some cache =>
          { st := { st with heap := heapSet st.heap p { d with Cache := cache } }
            enqueued := some p, emitted := none }
        | none =>
          { st := { st with sending := some (p, buf) }, enqueued := none, emitted := none }
      else
        ListenUDP.newConn { st with table := mapDelete st.table addr } addr buf
    | none => { st := st, enqueued := none, emitted := none }
  | none => ListenUDP.newConn st addr buf

/-- The send `d.Cache <- buf` the loop waits in goes through once the channel
has room; until then nothing changes. -/
def ListenUDP.resume (st : UDPListener) : RecvOut :=
  match st.sending with
  | some (p, buf) =>
    match st.heap p with
    | some d =>
      match chanSend d.Cache buf with
      | some cache =>
        { st := { st with heap := heapSet st.heap p { d with Cache := cache }, sending := none }
          enqueued := some p, emitted := none }
      | none => { st := st, enqueued := none, emitted := none }
    | none => { st := st, enqueued := none, emitted := none }
  | none => { st := st, enqueued := none, emitted := none }

/-- The pointers of the table point to pseudo-connections made so far, and
no pointer at or above `next` is in use. -/
def UDPListener.WF (st : UDPListener) : Prop :=
  (∀ q, st.next ≤ q → st.heap q = none) ∧
  (∀ k p, mapGet st.table k = some p → ∃ d, st.heap p = some d)

/-! ### The listener together with the users of its pseudo-connections -/

/-- A step of the listener goroutine or of a goroutine that uses a
pseudo-connection. -/
inductive UAct where
  /-- The call `serv.ReadFrom` of the listener returns `buf` from `addr`. -/
  | datagram (addr : GoStr) (buf : List Nat)
  /-- The send the listener waits in goes through. -/
  | resume
  /-- A call `p.Read(b)`. -/
  | read (p : Nat) (b : List Nat)
  /-- A call `p.Write(b)`, with what `WriteTo` returns if called. -/
  | write (p : Nat) (b : List Nat) (sock : Int × Option GoStr)
  /-- A call `p.Close()`. -/
  | close (p : Nat)

/-- What a step shows to an observer. -/
inductive UEv where
  /-- The listener got `buf` from `addr` and sent `emitted` on `clientc`. -/
  | arrived (addr : GoStr) (buf : List Nat) (emitted : Option Nat)
  /-- The channel `Cache` of `p` took `buf`. -/
  | enqueued (p : Nat) (buf : List Nat)
  /-- The call `p.Read` returned, with the buffer as it left it. -/
  | readRet (p : Nat) (b : List Nat) (n : Nat) (err : Option GoStr)
  /-- The call `p.Write` returned. -/
  | writeRet (p : Nat) (sent : Option (GoStr × List Nat)) (n : Int) (err : Option GoStr)
  /-- The call `p.Close` returned. -/
  | closeRet (p : Nat) (err : Option GoStr)
deriving DecidableEq, Repr

/-- The event of an enqueue, if there was one. -/
def enqEvents (p : Option Nat) (buf : List Nat) : List UEv :=
  match p with
  | some q => [UEv.enqueued q buf]
  | none => []

/-- One step of the system. A step that cannot be taken (a datagram while
the listener waits in a send, a call through a pointer never made) leaves the
state as it is and shows nothing. -/
def UDP.step (st : UDPListener) : UAct → UDPListener × List UEv
  | .datagram addr buf =>
    match st.sending with
    | some _ => (st, [])
    | none =>
      let r := ListenUDP.recv st addr buf
      (r.st, UEv.arrived addr buf r.emitted :: enqEvents r.enqueued buf)
  | .resume =>
    match st.sending with
    | some (_, buf) =>
      let r := ListenUDP.resume st
      (r.st, enqEvents r.enqueued buf)
    | none => (st, [])
  | .read p b =>
    match st.heap p with
    | some d =>
      let r := d.Read b
      ({ st with heap := heapSet st.heap p r.this }, [UEv.readRet p r.b r.n r.err])
    | none => (st, [])
  | .write p b sock =>
    match st.heap p with
    | some d =>
      let r := d.Write b sock
      (st, [UEv.writeRet p r.sent r.n r.err])
    | none => (st, [])
  | .close p =>
    match st.heap p with
    | some d =>
      let r := d.Close
      ({ st with heap := heapSet st.heap p r.1 }, [UEv.closeRet p r.2])
    | none => (st, [])

/-- A run of the system: the state at the end and what it showed. -/
def UDP.run (st : UDPListener) : List UAct → UDPListener × List UEv
  | [] => (st, [])
  | a :: acts =>
    let r := UDP.step st a
    let r2 := UDP.run r.1 acts
    (r2.1, r.2 ++ r2.2)

/-- The datagrams the successful reads of `p` returned, in order: the first
`n` bytes of the buffer of each. -/
def delivered (p : Nat) : List UEv → List (List Nat)
  | [] => []
  | UEv.readRet q b n none :: tr =>
    if q = p then b.take n :: delivered p tr else delivered p tr
  | _ :: tr => delivered p tr

/-- The datagrams the listener put in the `Cache` of `p`, in order. -/
def enqueuedTo (p : Nat) : List UEv → List (List Nat)
  | [] => []
  | UEv.enqueued q buf :: tr =>
    if q = p then buf :: enqueuedTo p tr else enqueuedTo p tr
  | _ :: tr => enqueuedTo p tr

/-- The datagrams the listener got from `addr`, in order. -/
def fromPeer (addr : GoStr) : List UEv → List (List Nat)
  | [] => []
  | UEv.arrived a buf _ :: tr =>
    if a = addr then buf :: fromPeer addr tr else fromPeer addr tr
  | _ :: tr => fromPeer addr tr

/-- The datagrams the listener got from the peer of `p`, from the one that
made it create `p` on, in order. -/
def arrivalsSince (p : Nat) : List UEv → List (List Nat)
  | [] => []
  | UEv.arrived addr buf em :: tr =>
    if em = some p then buf :: fromPeer addr tr else arrivalsSince p tr
  | _ :: tr => arrivalsSince p tr

/-- The buffer of a successful read was at least as large as the datagram
the read returned (the count returned is the length of the datagram). -/
def UEv.roomy : UEv → Prop
  | .readRet _ b n none => n ≤ b.length
  | _ => True

instance (ev : UEv) : Decidable ev.roomy := by
  unfold UEv.roomy; split <;> infer_instance

/-- The address in the event that shows the creation of `p`, if there is one. -/
def creator (p : Nat) : List UEv → Option GoStr
  | [] => none
  | UEv.arrived addr _ em :: tr => if em = some p then some addr else creator p tr
  | _ :: tr => creator p tr

/-- The datagram the listener holds for `p` while it waits in a send. -/
def pending (st : UDPListener) (p : Nat) : List (List Nat) :=
  match st.sending with
  | some (q, buf) => if q = p then [buf] else []
  | none => []

/-- An event that is no arrival, no enqueue and no successful read. -/
def UEv.quiet : UEv → Prop
  | .arrived _ _ _ => False
  | .enqueued _ _ => False
  | .readRet _ _ _ err => err ≠ none
  | _ => True

/-- What holds of every state of the system reached from the start of the
listener, with `tr` what was shown on the way, when the buffer of every
successful read was large enough. -/
structure UDP.Inv (st : UDPListener) (tr : List UEv) : Prop where
  wf : st.WF
  cap : ∀ p d, st.heap p = some d → d.Cache.length ≤ 16
  key : ∀ k p d, mapGet st.table k = some p → st.heap p = some d → d.RAddr = k
  pend : ∀ p buf, st.sending = some (p, buf) →
    ∃ d, st.heap p = some d ∧ mapGet st.table d.RAddr = some p
  queue : ∀ p d, st.heap p = some d → enqueuedTo p tr = delivered p tr ++ d.Cache
  made : ∀ p, creator p tr = (st.heap p).map (fun d => d.RAddr)
  unborn : ∀ p, st.heap p = none → enqueuedTo p tr = [] ∧ delivered p tr = []
  first : ∀ p d, st.heap p = some d →
    ∃ buf rest, enqueuedTo p tr = buf :: rest ∧ UEv.arrived d.RAddr buf (some p) ∈ tr
  order : ∀ p d, st.heap p = some d →
    (mapGet st.table d.RAddr = some p →
      arrivalsSince p tr = enqueuedTo p tr ++ pending st p) ∧
    (mapGet st.table d.RAddr ≠ some p → enqueuedTo p tr <+: arrivalsSince p tr)

/-- A state of the listener with one established pseudo-connection, used as
the concrete input of witnesses. -/
def demuxState : UDPListener :=
  (ListenUDP.recv (ListenUDP.init 0) (str "10.0.0.1:9") [1]).st

/-- What an event may be once `p` is closed: a read or a write of `p` returns
0 and the error of a closed pseudo-connection, a write of `p` hands nothing to
the socket, a close of `p` returns no error. -/
def UEv.closedFor (p : Nat) : UEv → Prop
  | .readRet q _ n err => q = p → n = 0 ∧ err = some errClosed
  | .writeRet q sent n err => q = p → sent = none ∧ n = 0 ∧ err = some errClosed
  | .closeRet q err => q = p → err = none
  | _ => True

/-- A run used as the concrete input of witnesses: two datagrams of a peer,
a read, a close, a third datagram of the peer and a read of the new
pseudo-connection. -/
def demuxActs : List UAct :=
  [.datagram (str "10.0.0.1:9") [1, 2], .datagram (str "10.0.0.1:9") [3],
   .read 0 [0, 0], .close 0, .datagram (str "10.0.0.1:9") [4], .read 1 [0, 0]]

/-- Calls on a closed pseudo-connection used as the concrete input of a
witness: a read, a write, a datagram of its peer, a read. -/
def closedActs : List UAct :=
  [.read 0 [0, 0], .write 0 [5] (1, none), .datagram (str "10.0.0.1:9") [2], .read 0 [0, 0]]

/-- The pseudo-connection of `demuxState`. -/
def demuxConn : UDPDistribute :=
  { Established := true, Conn := 0, RAddr := str "10.0.0.1:9", Cache := [[1]] }

/-- The outside of the witness of `ConnConn`: A answers with the four bytes of "PING". -/
def pingWorld : CCWorld where
  stop := false
  dial1 := .ok 1
  knock1 := none
  read1 := fun buf => ([80, 73, 78, 71] ++ buf.drop 4, 4, none)
  dial2 := .ok 2
  knock2 := none
  write2 := fun b => (b.length, none)

/-! ## `log.go`, the other loggers -/

/-- The line a logger prints: `[time] [TAG] message`. -/
def logLine (tag : String) (now msg : GoStr) : GoStr :=
  str "[" ++ now ++ str "] [" ++ str tag ++ str "] " ++ msg

/-- Go `LogFatal(format, a...)`, as the lines it prints. -/
def LogFatal (LOG_LEVEL : Nat) (now msg : GoStr) : List GoStr :=
  if LOG_LEVEL < LOG_LEVEL_FATAL then [] else [logLine "FATAL" now msg]

/-- Go `LogWarn(format, a...)`, as the lines it prints. -/
def LogWarn (LOG_LEVEL : Nat) (now msg : GoStr) : List GoStr :=
  if LOG_LEVEL < LOG_LEVEL_WARN then [] else [logLine "WARN" now msg]

/-- Go `LogInfo(format, a...)`, as the lines it prints. -/
def LogInfo (LOG_LEVEL : Nat) (now msg : GoStr) : List GoStr :=
  if LOG_LEVEL < LOG_LEVEL_INFO then [] else [logLine "INFO" now msg]

/-- Go `LogDebug(format, a...)`, as the lines it prints. -/
def LogDebug (LOG_LEVEL : Nat) (now msg : GoStr) : List GoStr :=
  if LOG_LEVEL < LOG_LEVEL_DEBUG then [] else [logLine "DEBUG" now msg]

/-! ## `forward.go`, `ListenConn` -/

/-- The cases of the `select` of `ListenConn`. -/
inductive LCEvent where
  /-- Go `<-stop`. -/
  | stop
  /-- Go `sock1 = <-clientc`, `none` being the `nil` a failed listener sends,
  with what `sockfoo2(addr2)` answers if the driver dials. A dial that returns
  no error returns a connection. -/
  | client (c : Option Conn) (dial : Except GoStr Conn)

/-- One iteration of the loop of `ListenConn` on the event its `select`
takes: `count` afterwards (`none` when the function returned) and the actions
of the iteration. -/
def ListenConn.iter (proto : Nat) (addr2 : GoStr) (count : Nat) :
    LCEvent → Option Nat × List Act
  | .stop => (none, [Act.quit 1])
  | .client sock1 dial =>
    if sock1 = none then (some count, [Act.stopSend])
    else
      let acts0 := [Act.RemoteAddr sock1, Act.LogInfo "A point(link%d) [%s] is ready",
        Act.LogInfo "dial B point with sock2 [%s]",
        if proto = PORTFORWARD_PROTO_UDP then Act.ConnUDP addr2 else Act.ConnTCP addr2]
      match dial with
      | .error _ => (some count, acts0 ++ [Act.Close sock1, Act.LogError "%s"])
      | .ok sock2 =>
        (some (count + 1), acts0 ++ [Act.LogInfo "B point(sock2) is ready",
          Act.ConnectSock count sock1 (some sock2)])

/-- The loop of `ListenConn` over the events taken, from a value of `count`:
`count` at the end (`none` when the function returned) and the actions. -/
def ListenConn.loop (proto : Nat) (addr2 : GoStr) :
    Nat → List LCEvent → Option Nat × List Act
  | count, [] => (some count, [])
  | count, e :: es =>
    match ListenConn.iter proto addr2 count e with
    | (none, acts) => (none, acts)
    | (some c, acts) =>
      let r := ListenConn.loop proto addr2 c es
      (r.1, acts ++ r.2)

/-- Go `ListenConn(proto, addr1, addr2)` run on a sequence of events. -/
def ListenConn (proto : Nat) (addr1 addr2 : GoStr) (events : List LCEvent) : List Act :=
  [Act.LogInfo "listen A point with sock1 [%s]",
   if proto = PORTFORWARD_PROTO_UDP then Act.ListenUDP 1 addr1 else Act.ListenTCP 1 addr1] ++
  (ListenConn.loop proto addr2 1 events).2

/-- The ids of the pairs handed to `ConnectSock`, in order. -/
def spliceIds : List Act → List Nat
  | [] => []
  | Act.ConnectSock id _ _ :: acts => id :: spliceIds acts
  | _ :: acts => spliceIds acts

/-- A method call or a splice that uses no `nil` stream. -/
def Act.nonNil : Act → Prop
  | .RemoteAddr sock => sock ≠ none
  | .Close sock => sock ≠ none
  | .Read sock _ => sock ≠ none
  | .Write sock _ => sock ≠ none
  | .ConnectSock _ sock1 sock2 => sock1 ≠ none ∧ sock2 ≠ none
  | _ => True

instance (a : Act) : Decidable a.nonNil := by
  cases a <;> unfold Act.nonNil <;> infer_instance

/-! ## `tcp.go`, `ListenTCP` -/

/-- Where the goroutine of `ListenTCP` is. -/
inductive ListenerPC where
  /-- Before `net.ResolveTCPAddr`. -/
  | setup
  /-- In the accept loop. -/
  | accepting
  /-- The function returned. -/
  | returned
deriving DecidableEq, Repr

/-- What the next call of `ListenTCP` meets. -/
inductive ListenerMeets where
  /-- Go `net.ResolveTCPAddr` fails. -/
  | resolveFails
  /-- Go `net.ListenTCP` fails. -/
  | listenFails
  /-- The socket is bound. -/
  | bound
  /-- A value is ready on `quit`. -/
  | quitSeen
  /-- Go `serv.Accept` runs into its deadline of 16 seconds. -/
  | timeout
  /-- Go `serv.Accept` fails with another error. -/
  | acceptFails
  /-- Go `serv.Accept` returns a connection. -/
  | accepted (c : Conn)
deriving DecidableEq, Repr

/-- One step of `ListenTCP`: where it is afterwards and what it sends on
`clientc` (`some none` is `clientc <- nil`); `none` when the step is not one
the function can take where it is. `ListenUDP` has the same exits: `clientc <-
nil; return` after a failed resolve, bind or read, `return` on `quit`. -/
def ListenTCP.step : ListenerPC → ListenerMeets → Option (ListenerPC × Option (Option Conn))
  | .setup, .resolveFails => some (.returned, some none)
  | .setup, .listenFails => some (.returned, some none)
  | .setup, .bound => some (.accepting, none)
  | .accepting, .quitSeen => some (.returned, none)
  | .accepting, .timeout => some (.accepting, none)
  | .accepting, .acceptFails => some (.returned, some none)
  | .accepting, .accepted c => some (.accepting, some (some c))
  | _, _ => none

/-! ### The driver `ListenConn` together with its listener and the channel `stop` -/

/-- Capacity of the channel `stop`, from `make(chan bool, 3)` in `Launch`. -/
def stopCap : Nat := 3

/-- A session of `ListenConn`: the variable `count`, the number of values the
channel `stop` holds, and where the listener is. -/
structure LCSession where
  count : Nat
  stop : Nat
  listener : ListenerPC
deriving DecidableEq, Repr

/-- A step of a session. -/
inductive LCSessionEvent where
  /-- The `select` of the driver takes `<-stop`. -/
  | stop
  /-- The listener takes a step; what it sends on `clientc`, the `select` of
  the driver takes, and `dial` is what `sockfoo2(addr2)` answers if called. The
  listener sees no value on `quit` while the driver runs. -/
  | listener (m : ListenerMeets) (dial : Except GoStr Conn)
  /-- A call of `Shutdown()`: `stop <- true`. -/
  | shutdown

/-- How a step of a session ends. -/
inductive LCOutcome where
  /-- The step cannot be taken: no value on `stop`, the listener is elsewhere,
  or `Shutdown` waits for room on `stop`. -/
  | notReady
  /-- The driver waits in `stop <- true`: the channel is full. -/
  | blocked
  /-- The session goes on. -/
  | next (s : LCSession) (acts : List Act)
  /-- The driver returned. -/
  | returned (acts : List Act)
deriving DecidableEq, Repr

/-- One step of a session of `ListenConn`. -/
def LCSession.step (proto : Nat) (addr2 : GoStr) (s : LCSession) :
    LCSessionEvent → LCOutcome
  | .stop =>
    if s.stop = 0 then .notReady
    else .returned (ListenConn.iter proto addr2 s.count .stop).2
  | .listener m dial =>
    if m = .quitSeen then .notReady
    else
      match ListenTCP.step s.listener m with
      | none => .notReady
      | some (pc, none) => .next { s with listener := pc } []
      | some (pc, some v) =>
        let r := ListenConn.iter proto addr2 s.count (.client v dial)
        match r.1 with
        | none => .returned r.2
        | some count =>
          if Act.stopSend ∈ r.2 then
            if s.stop < stopCap then
              .next { count := count, stop := s.stop + 1, listener := pc } r.2
            else .blocked
          else .next { count := count, stop := s.stop, listener := pc } r.2
  | .shutdown =>
    if s.stop < stopCap then .next { s with stop := s.stop + 1 } [] else .notReady

/-- The session when `ListenConn` starts: `count` is 1, the channel `stop`
made by `Launch` is empty, the listener is started. -/
def LCSession.init : LCSession := { count := 1, stop := 0, listener := .setup }

/-- A run of a session: the steps are taken in order until one ends the
session or cannot be taken. -/
def LCSession.run (proto : Nat) (addr2 : GoStr) :
    LCSession → List LCSessionEvent → LCOutcome
  | s, [] => .next s []
  | s, e :: es =>
    match LCSession.step proto addr2 s e with
    | .next s1 acts =>
      match LCSession.run proto addr2 s1 es with
      | .next s2 acts2 => .next s2 (acts ++ acts2)
      | .returned acts2 => .returned (acts ++ acts2)
      | o => o
    | o => o

/-- The number of calls of `Shutdown` in a run. -/
def shutdowns : List LCSessionEvent → Nat
  | [] => 0
  | .shutdown :: es => shutdowns es + 1
  | _ :: es => shutdowns es

/-- The values on `stop`, plus one while the listener has not returned. -/
def LCSession.budget (s : LCSession) : Nat :=
  s.stop + if s.listener = .returned then 0 else 1

/-! ### One established pseudo-connection per peer -/

/-- The table sends an address to a pseudo-connection of that address. -/
def UDPListener.Keyed (st : UDPListener) : Prop :=
  ∀ k p d, mapGet st.table k = some p → st.heap p = some d → d.RAddr = k

/-- Every established pseudo-connection is the entry of the table for its
address. -/
def UDPListener.LiveInTable (st : UDPListener) : Prop :=
  ∀ p d, st.heap p = some d → d.Established = true → mapGet st.table d.RAddr = some p

/-! ## Theorems -/

/-! ### `strings.Index` and `strings.SplitN` -/

theorem strings.Index_eq_none (s : GoStr) (sep : Rune) :
    strings.Index s sep = none ↔ sep ∉ s := by
  induction s with
  | nil => simp [strings.Index]
  | cons c cs ih =>
    by_cases h : c = sep
    · simp [strings.Index, h]
    · have h2 : ¬ sep = c := fun e => h e.symm
      simp [strings.Index, h, h2, ih]

theorem strings.Index_append (m a : GoStr) (sep : Rune) (h : sep ∉ m) :
    strings.Index (m ++ sep :: a) sep = some m.length := by
  induction m with
  | nil => simp [strings.Index]
  | cons c cs ih =>
    have hc : ¬ c = sep := fun e => h (by simp [e])
    have hcs : sep ∉ cs := fun e => h (by simp [e])
    simp [strings.Index, hc, ih hcs]

theorem strings.Index_some (s : GoStr) (sep : Rune) (k : Nat)
    (h : strings.Index s sep = some k) :
    s.take k = s.takeWhile (· ≠ sep) ∧ sep ∈ s := by
  induction s generalizing k with
  | nil => simp [strings.Index] at h
  | cons c cs ih =>
    by_cases hc : c = sep
    · simp [strings.Index, hc] at h
      subst h
      simp [hc]
    · cases hj : strings.Index cs sep with
      | none => simp [strings.Index, hc, hj] at h
      | some j =>
        simp [strings.Index, hc, hj] at h
        subst h
        have := ih j hj
        simp [List.takeWhile_cons, hc, this.1, this.2]

theorem strings.SplitN_two (s : GoStr) (sep : Rune) :
    strings.SplitN s sep 2 =
      match strings.Index s sep with
      | none => [s]
      | some m => [s.take m, s.drop (m + 1)] := by
  cases s with
  | nil => simp [strings.SplitN, strings.splitLoop, strings.Index]
  | cons c cs =>
    have : min 2 ((c :: cs).length + 1) - 1 = 1 := by simp
    simp only [strings.SplitN, this, strings.splitLoop]
    simp

/-! ### `parseSock` -/

theorem parseSock_no_colon (s : GoStr) (h : colon ∉ s) :
    parseSock s = (PORTFORWARD_SOCK_NIL, [],
      some (str "host format must [method:address:port]")) := by
  have hi := (strings.Index_eq_none s colon).2 h
  simp [parseSock, strings.SplitN_two, hi]

theorem parseSock_colon (s : GoStr) (h : colon ∈ s) :
    parseSock s =
      if strings.ToUpper (beforeColon s) = str "LISTEN" then
        (PORTFORWARD_SOCK_LISTEN, s.drop ((beforeColon s).length + 1), none)
      else if strings.ToUpper (beforeColon s) = str "CONN" then
        (PORTFORWARD_SOCK_CONN, s.drop ((beforeColon s).length + 1), none)
      else
        (PORTFORWARD_SOCK_NIL, [],
          some (str "unknown method [" ++ beforeColon s ++ str "]")) := by
  cases hi : strings.Index s colon with
  | none => exact absurd h ((strings.Index_eq_none s colon).1 hi)
  | some k =>
    have hk := (strings.Index_some s colon k hi).1
    have hlen : (beforeColon s).length = k := by
      have h1 : k ≤ s.length := by
        by_contra hcon
        have : s.take k = s := List.take_of_length_le (by omega)
        have hmem : colon ∈ s.takeWhile (· ≠ colon) := by rw [← hk, this]; exact h
        have := List.mem_takeWhile_imp hmem
        simp at this
      unfold beforeColon
      rw [← hk, List.length_take]
      omega
    simp only [parseSock, strings.SplitN_two, hi, hlen]
    rw [hk]
    rfl

theorem upper_of_asciiLower (c x : Nat) (hx : 0x61 ≤ x ∧ x ≤ 0x7A)
    (h : asciiLower c = asciiLower x) : unicode.ToUpper c = x - 0x20 ∧ c ≠ colon := by
  unfold asciiLower at h
  unfold unicode.ToUpper colon
  split_ifs at h ⊢ <;> omega

theorem upper_of_eqIgnoreCase (m w : GoStr) (hw : ∀ x ∈ w, 0x61 ≤ x ∧ x ≤ 0x7A)
    (h : EqIgnoreCase m w) : strings.ToUpper m = w.map (· - 0x20) ∧ colon ∉ m := by
  unfold EqIgnoreCase at h
  induction m generalizing w with
  | nil =>
    cases w with
    | nil => simp [strings.ToUpper]
    | cons x xs => simp at h
  | cons c cs ih =>
    cases w with
    | nil => simp at h
    | cons x xs =>
      simp only [List.map_cons, List.cons.injEq] at h
      have hx := hw x (by simp)
      have hxs : ∀ y ∈ xs, 0x61 ≤ y ∧ y ≤ 0x7A := fun y hy => hw y (by simp [hy])
      obtain ⟨h1, h2⟩ := upper_of_asciiLower c x hx h.1
      obtain ⟨h3, h4⟩ := ih xs hxs h.2
      constructor
      · simp only [strings.ToUpper, List.map_cons, h1, List.cons.injEq, true_and]
        exact h3
      · simp only [List.mem_cons, not_or]
        exact ⟨fun e => h2 e.symm, h4⟩

theorem upper_iff_goFold (c x : Nat) (hx : 0x61 ≤ x ∧ x ≤ 0x7A) :
    unicode.ToUpper c = x - 0x20 ↔ goFold c = goFold x := by
  unfold unicode.ToUpper goFold
  split_ifs <;> omega

theorem toUpper_iff_eqGoFold (m w : GoStr) (hw : ∀ x ∈ w, 0x61 ≤ x ∧ x ≤ 0x7A) :
    strings.ToUpper m = w.map (· - 0x20) ↔ EqGoFold m w := by
  unfold EqGoFold strings.ToUpper
  induction m generalizing w with
  | nil => cases w <;> simp
  | cons c cs ih =>
    cases w with
    | nil => simp
    | cons x xs =>
      have hx := hw x (by simp)
      have hxs : ∀ y ∈ xs, 0x61 ≤ y ∧ y ≤ 0x7A := fun y hy => hw y (by simp [hy])
      simp only [List.map_cons, List.cons.injEq, upper_iff_goFold c x hx, ih xs hxs]

/-- C1. `parseSock` splits on the first colon only: when the method `m` equals
"listen" or "conn" ignoring case, `parseSock (m ++ ":" ++ a)` returns no error,
the method code of `m` (LISTEN for "listen", CONN for "conn") and the address
`a` unchanged, whatever `a` is (further colons, empty). -/
theorem parseSock_splits_first_colon (m a : GoStr)
    (h : EqIgnoreCase m (str "listen") ∨ EqIgnoreCase m (str "conn")) :
    parseSock (m ++ str ":" ++ a) =
      (if EqIgnoreCase m (str "listen") then PORTFORWARD_SOCK_LISTEN
        else PORTFORWARD_SOCK_CONN, a, none) := by
  have key : ∀ w : GoStr, (∀ x ∈ w, 0x61 ≤ x ∧ x ≤ 0x7A) → EqIgnoreCase m w →
      strings.ToUpper m = w.map (· - 0x20) ∧
      strings.SplitN (m ++ str ":" ++ a) colon 2 = [m, a] := by
    intro w hw hm
    obtain ⟨h1, h2⟩ := upper_of_eqIgnoreCase m w hw hm
    refine ⟨h1, ?_⟩
    have e : m ++ str ":" ++ a = m ++ colon :: a := by
      simp [show str ":" = [colon] by decide]
    rw [e, strings.SplitN_two, strings.Index_append m a colon h2]
    simp
  by_cases hl : EqIgnoreCase m (str "listen")
  · obtain ⟨h1, h2⟩ := key (str "listen") (by decide) hl
    have h3 : (str "listen").map (· - 0x20) = str "LISTEN" := by decide
    simp only [parseSock, h2, h1, h3, if_true, hl]
  · have hc : EqIgnoreCase m (str "conn") := h.resolve_left hl
    obtain ⟨h1, h2⟩ := key (str "conn") (by decide) hc
    have h3 : (str "conn").map (· - 0x20) = str "CONN" := by decide
    have h4 : ¬ str "CONN" = str "LISTEN" := by decide
    simp only [parseSock, h2, h1, h3, h4, if_true, if_false, hl]

/-- Witness of C1 on the IPv6 example of the usage text. -/
theorem parseSock_splits_first_colon_witness :
    (EqIgnoreCase (str "LiStEn") (str "listen") ∨ EqIgnoreCase (str "LiStEn") (str "conn")) ∧
    parseSock (str "LiStEn" ++ str ":" ++ str "[fe80::1%lo0]:8888") =
      (if EqIgnoreCase (str "LiStEn") (str "listen") then PORTFORWARD_SOCK_LISTEN
        else PORTFORWARD_SOCK_CONN, str "[fe80::1%lo0]:8888", none) :=
  ⟨by decide, parseSock_splits_first_colon _ _ (by decide)⟩

/-- C2, as stated, fails: the text before the first colon of "lısten:127.0.0.1:80"
(with U+0131 for the second letter) is neither "listen" nor "conn" ignoring
case, the string has a colon, and `parseSock` returns no error. -/
theorem parseSock_error_iff_counterexample :
    ¬ ((parseSock (str "lısten:127.0.0.1:80")).2.2 ≠ none ↔
        (colon ∉ str "lısten:127.0.0.1:80" ∨
          (¬ EqIgnoreCase (beforeColon (str "lısten:127.0.0.1:80")) (str "listen") ∧
           ¬ EqIgnoreCase (beforeColon (str "lısten:127.0.0.1:80")) (str "conn")))) := by
  decide

/-- C2, amended. `parseSock s` returns an error exactly when `s` has no colon
or the text before its first colon is neither "listen" nor "conn" ignoring
case, where U+0131 also counts as `i` and U+017F as `s` (their upper case under
`strings.ToUpper` is `I` and `S`); and with an error the method is
PORTFORWARD_SOCK_NIL and the address is empty. -/
theorem parseSock_error_iff (s : GoStr) :
    ((parseSock s).2.2 ≠ none ↔
      (colon ∉ s ∨ (¬ EqGoFold (beforeColon s) (str "listen") ∧
                    ¬ EqGoFold (beforeColon s) (str "conn")))) ∧
    ((parseSock s).2.2 = none ∨
      ((parseSock s).1 = PORTFORWARD_SOCK_NIL ∧ (parseSock s).2.1 = [])) := by
  have hl := toUpper_iff_eqGoFold (beforeColon s) (str "listen") (by decide)
  have hc := toUpper_iff_eqGoFold (beforeColon s) (str "conn") (by decide)
  rw [show (str "listen").map (· - 0x20) = str "LISTEN" by decide] at hl
  rw [show (str "conn").map (· - 0x20) = str "CONN" by decide] at hc
  by_cases h : colon ∈ s
  · rw [parseSock_colon s h, ← hl, ← hc]
    split_ifs with h1 h2
    · simp [h, h1]
    · simp [h, h1, h2]
    · simp [h, h1, h2, PORTFORWARD_SOCK_NIL]
  · rw [parseSock_no_colon s h]
    simp [h]

/-! ### `Launch` -/

/-- C10. `Launch` dispatches on the two methods only: (CONN, CONN) runs
`ConnConn(protocol, addr1, addr2)`, (LISTEN, LISTEN) runs
`ListenListen(protocol, addr1, addr2)`, (LISTEN, CONN) runs `ListenConn`
listening on `addr1` and dialing `addr2`, (CONN, LISTEN) runs `ListenConn`
listening on `addr2` and dialing `addr1`; for every other pair of methods no
driver is run and `LogError` is called with "unknown forward method", which
prints one ERROR line at the level the program runs with. -/
theorem Launch_dispatch (LOG_LEVEL : Nat) (now : GoStr) (p m1 m2 : Nat) (a1 a2 : GoStr) :
    (Launch LOG_LEVEL now ⟨p, PORTFORWARD_SOCK_CONN, a1, PORTFORWARD_SOCK_CONN, a2⟩).driver
      = some (.ConnConn p a1 a2) ∧
    (Launch LOG_LEVEL now ⟨p, PORTFORWARD_SOCK_LISTEN, a1, PORTFORWARD_SOCK_LISTEN, a2⟩).driver
      = some (.ListenListen p a1 a2) ∧
    (Launch LOG_LEVEL now ⟨p, PORTFORWARD_SOCK_LISTEN, a1, PORTFORWARD_SOCK_CONN, a2⟩).driver
      = some (.ListenConn p a1 a2) ∧
    (Launch LOG_LEVEL now ⟨p, PORTFORWARD_SOCK_CONN, a1, PORTFORWARD_SOCK_LISTEN, a2⟩).driver
      = some (.ListenConn p a2 a1) ∧
    (((m1 = PORTFORWARD_SOCK_CONN ∨ m1 = PORTFORWARD_SOCK_LISTEN) ∧
      (m2 = PORTFORWARD_SOCK_CONN ∨ m2 = PORTFORWARD_SOCK_LISTEN)) ∨
     ((Launch LOG_LEVEL now ⟨p, m1, a1, m2, a2⟩).driver = none ∧
      (Launch LOG_LEVEL now ⟨p, m1, a1, m2, a2⟩).printed =
        LogError LOG_LEVEL now (str "unknown forward method") ∧
      (Launch LOG_LEVEL_DEFAULT now ⟨p, m1, a1, m2, a2⟩).printed =
        [str "[" ++ now ++ str "] [ERROR] " ++ str "unknown forward method"])) := by
  refine ⟨by simp [Launch], by simp [Launch, PORTFORWARD_SOCK_LISTEN, PORTFORWARD_SOCK_CONN],
    by simp [Launch, PORTFORWARD_SOCK_LISTEN, PORTFORWARD_SOCK_CONN],
    by simp [Launch, PORTFORWARD_SOCK_LISTEN, PORTFORWARD_SOCK_CONN], ?_⟩
  by_cases h1 : m1 = PORTFORWARD_SOCK_CONN <;> by_cases h2 : m2 = PORTFORWARD_SOCK_CONN <;>
    by_cases h3 : m1 = PORTFORWARD_SOCK_LISTEN <;> by_cases h4 : m2 = PORTFORWARD_SOCK_LISTEN <;>
    simp [Launch, h1, h2, h3, h4, LogError, LOG_LEVEL_DEFAULT, LOG_LEVEL_DEBUG, LOG_LEVEL_WARN]

/-! ### `ListenListen` -/

/-- C3 fails on the code. The timeout branch of `ListenListen` closes what the
holders have and leaves the holders as they are, for every state; so on a
client 7 on side A, the timeout, then a client 9 on side B, the driver closes 7
and afterwards hands the pair (7, 9) to `ConnectSock`. -/
theorem ListenListen_timeout_keeps_holders :
    (∀ st : LLState, (ListenListen.iter st .timeout).1 = some st) ∧
    (ListenListen.loop ListenListen.init [.client1 (some 7), .timeout]).1
      = some { sock1 := some 7, sock2 := none, count := 1 } ∧
    (ListenListen.loop ListenListen.init
        [.client1 (some 7), .timeout, .client2 (some 9)]).2 =
      [Act.RemoteAddr (some 7), Act.LogInfo "A point(link%d) [%s] is ready",
       Act.LogWarn "socket wait timeout, reset", Act.Close (some 7),
       Act.RemoteAddr (some 9), Act.LogInfo "B point(link%d) [%s] is ready",
       Act.ConnectSock 1 (some 7) (some 9)] := by
  refine ⟨fun st => rfl, rfl, rfl⟩

theorem splicedPairs_append (xs ys : List Act) :
    splicedPairs (xs ++ ys) = splicedPairs xs ++ splicedPairs ys := by
  induction xs with
  | nil => rfl
  | cons x xs ih => cases x <;> simp [splicedPairs, ih]

/-- Pairing from any state of the holders with at most one of them occupied. -/
theorem ListenListen_pairs_from (es : List Arrival) :
    ∀ st : LLState, (st.sock1 = none ∨ st.sock2 = none) →
    (∀ k, k ≤ es.length →
      st.sock1.toList.length + (arrivalsA (es.take k)).length
        ≤ st.sock2.toList.length + (arrivalsB (es.take k)).length + 1 ∧
      st.sock2.toList.length + (arrivalsB (es.take k)).length
        ≤ st.sock1.toList.length + (arrivalsA (es.take k)).length + 1) →
    splicedPairs (ListenListen.loop st (es.map Arrival.event)).2 =
      (List.zip (st.sock1.toList ++ arrivalsA es) (st.sock2.toList ++ arrivalsB es)).map
        (fun p => (some p.1, some p.2)) := by
  induction es with
  | nil =>
    intro st h _
    rcases h with h | h <;> simp [ListenListen.loop, splicedPairs, arrivalsA, arrivalsB, h]
  | cons e es ih =>
    intro st h hb
    obtain ⟨s1, s2, n⟩ := st
    have hb1 := hb 1 (by simp)
    cases e with
    | A c =>
      have hs1 : s1 = none := by
        cases s1 with
        | none => rfl
        | some x =>
          cases s2 with
          | none => simp [arrivalsA, arrivalsB] at hb1
          | some y => simp at h
      subst hs1
      cases s2 with
      | none =>
        have := ih { sock1 := some c, sock2 := none, count := n } (by simp) (by
          intro k hk
          have := hb (k + 1) (by simp; omega)
          clear hb1
          simp [arrivalsA, arrivalsB] at this ⊢
          omega)
        simp [ListenListen.loop, ListenListen.iter, ListenListen.pair, Arrival.event,
          splicedPairs, arrivalsA, arrivalsB] at this ⊢
        exact this
      | some y =>
        have := ih { sock1 := none, sock2 := none, count := n + 1 } (by simp) (by
          intro k hk
          have := hb (k + 1) (by simp; omega)
          clear hb1
          simp [arrivalsA, arrivalsB] at this ⊢
          omega)
        simp [ListenListen.loop, ListenListen.iter, ListenListen.pair, Arrival.event,
          splicedPairs, arrivalsA, arrivalsB] at this ⊢
        exact this
    | B c =>
      have hs2 : s2 = none := by
        cases s2 with
        | none => rfl
        | some x =>
          cases s1 with
          | none => simp [arrivalsA, arrivalsB] at hb1
          | some y => simp at h
      subst hs2
      cases s1 with
      | none =>
        have := ih { sock1 := none, sock2 := some c, count := n } (by simp) (by
          intro k hk
          have := hb (k + 1) (by simp; omega)
          clear hb1
          simp [arrivalsA, arrivalsB] at this ⊢
          omega)
        simp [ListenListen.loop, ListenListen.iter, ListenListen.pair, Arrival.event,
          splicedPairs, arrivalsA, arrivalsB] at this ⊢
        exact this
      | some y =>
        have := ih { sock1 := none, sock2 := none, count := n + 1 } (by simp) (by
          intro k hk
          have := hb (k + 1) (by simp; omega)
          clear hb1
          simp [arrivalsA, arrivalsB] at this ⊢
          omega)
        simp [ListenListen.loop, ListenListen.iter, ListenListen.pair, Arrival.event,
          splicedPairs, arrivalsA, arrivalsB] at this ⊢
        exact this

/-- C4, as stated, fails: clients 1 and 2 arrive on side A, then client 3 on
side B; the first pair handed to `ConnectSock` is (2, 3), not (1, 3): the
second A-side arrival displaced the held one. -/
theorem ListenListen_fifo_counterexample :
    ¬ (∀ (k : Nat) (p : Option Conn × Option Conn),
        (splicedPairs (ListenListen.loop ListenListen.init
          ([Arrival.A 1, Arrival.A 2, Arrival.B 3].map Arrival.event)).2)[k]? = some p →
        (fifoPairs [Arrival.A 1, Arrival.A 2, Arrival.B 3])[k]? = some p) := by
  intro h
  have := h 0 (some 2, some 3) rfl
  revert this
  decide

/-- C4, amended. For every sequence of client arrivals on the two sides (no
timeout, stop or sentinel in between) in which no client arrives on a side that
still holds an unpaired client, the pairs handed to `ConnectSock` are, in
order, the k-th client of side A with the k-th client of side B. -/
theorem ListenListen_fifo_of_balanced (es : List Arrival) (h : Balanced es) :
    splicedPairs (ListenListen.loop ListenListen.init (es.map Arrival.event)).2 =
      fifoPairs es := by
  have := ListenListen_pairs_from es ListenListen.init (by simp [ListenListen.init]) (by
    intro k hk
    simpa [ListenListen.init] using h k hk)
  simpa [ListenListen.init, fifoPairs] using this

/-- Witness of the amended C4 on five arrivals. -/
theorem ListenListen_fifo_of_balanced_witness :
    Balanced [Arrival.A 1, Arrival.B 2, Arrival.B 3, Arrival.A 4, Arrival.A 5] ∧
    splicedPairs (ListenListen.loop ListenListen.init
      ([Arrival.A 1, Arrival.B 2, Arrival.B 3, Arrival.A 4, Arrival.A 5].map Arrival.event)).2 =
      fifoPairs [Arrival.A 1, Arrival.B 2, Arrival.B 3, Arrival.A 4, Arrival.A 5] :=
  ⟨by decide, ListenListen_fifo_of_balanced _ (by decide)⟩

/-! ### `ConnConn` -/

/-- C9, as stated, fails with protocol UDP: in an iteration that hands the pair
(1, 2) to `ConnectSock`, B (connection 2) is written twice before the splice,
first the knock 0x00 of `ConnUDP`, then the four bytes read from A; so the
writes to B are not the one write of the first packet. -/
theorem ConnConn_first_packet_counterexample :
    Act.ConnectSock 1 (some 1) (some 2) ∈
      (ConnConn.iter PORTFORWARD_PROTO_UDP (str "a:1") (str "b:2") 1 pingWorld).2 ∧
    writesOn (some 2)
      (ConnConn.iter PORTFORWARD_PROTO_UDP (str "a:1") (str "b:2") 1 pingWorld).2 =
      [Act.Write (some 2) [0x00], Act.Write (some 2) [80, 73, 78, 71]] ∧
    ¬ writesOn (some 2)
      (ConnConn.iter PORTFORWARD_PROTO_UDP (str "a:1") (str "b:2") 1 pingWorld).2 =
      [Act.Write (some 2)
        ((pingWorld.read1 ConnConn.newBuf).1.take (pingWorld.read1 ConnConn.newBuf).2.1.toNat)] := by
  simp [ConnConn.iter, pingWorld, ConnUDP, writesOn]

/-- C9, amended. In an iteration of `ConnConn` that hands a pair (A, B) to
`ConnectSock`, the iteration made one `Read`, on A with a buffer of 32*1024
bytes, which returned a count `n` with 0 ≤ n ≤ 32*1024; the action just before
the start of `ConnectSock`, which carries the current `count`, is a `Write` on
B of the first `n` bytes of the buffer that `Read` filled. With protocol TCP
that is the only `Write` of the iteration. With protocol UDP each dial is
`ConnUDP`, which first writes its knock, the one byte 0x00, on the connection
it returns: before the first packet the iteration wrote the knock on A and the
knock on B, and nothing else. -/
theorem ConnConn_first_packet (proto : Nat) (addr1 addr2 : GoStr) (count : Nat) (w : CCWorld)
    (id : Nat) (a b : Option Conn)
    (h : Act.ConnectSock id a b ∈ (ConnConn.iter proto addr1 addr2 count w).2) :
    ∃ sock1 sock2 pre,
      a = some sock1 ∧ b = some sock2 ∧ id = count ∧
      0 ≤ (w.read1 ConnConn.newBuf).2.1 ∧
      (w.read1 ConnConn.newBuf).2.1 ≤ 32 * 1024 ∧
      (ConnConn.iter proto addr1 addr2 count w).2 =
        pre ++ [Act.Write (some sock2)
                  ((w.read1 ConnConn.newBuf).1.take (w.read1 ConnConn.newBuf).2.1.toNat),
                Act.ConnectSock count (some sock1) (some sock2)] ∧
      readsOf pre = [Act.Read (some sock1) (32 * 1024)] ∧
      writesOf pre =
        if proto = PORTFORWARD_PROTO_UDP then
          [Act.Write (some sock1) [0x00], Act.Write (some sock2) [0x00]]
        else [] := by
  obtain ⟨stop, dial1, knock1, read1, dial2, knock2, write2⟩ := w
  simp only [ConnConn.iter] at h ⊢
  generalize read1 ConnConn.newBuf = r at h ⊢
  obtain ⟨buf, n, err⟩ := r
  simp only [] at h ⊢
  generalize write2 (List.take n.toNat buf) = wr at h ⊢
  obtain ⟨wn, werr⟩ := wr
  cases stop
  · by_cases hr : err = none
    · by_cases hn : n < 0 ∨ 32768 < n
      · by_cases hp : proto = PORTFORWARD_PROTO_UDP <;> cases dial1 <;> cases knock1 <;>
          simp [hp, hr, hn, ConnUDP, ConnTCP] at h
      · by_cases hw : werr = none
        · have hn2 : ¬ (n < 0 ∨ 32768 < n) := hn
          push_neg at hn
          by_cases hp : proto = PORTFORWARD_PROTO_UDP
          · cases dial1 with
            | error e => simp [hp, ConnUDP] at h
            | ok sock1 =>
              cases dial2 with
              | error e => cases knock1 <;> simp [hp, hr, hn2, ConnUDP] at h
              | ok sock2 =>
                cases knock1 with
                | some e => simp [hp, ConnUDP] at h
                | none =>
                  cases knock2 with
                  | some e => simp [hp, hr, hn2, ConnUDP] at h
                  | none =>
                    simp [hp, hr, hn2, hw, ConnUDP] at h
                    refine ⟨sock1, sock2,
                      [Act.LogInfo "dial A point with sock1 [%s]", Act.ConnUDP addr1,
                       Act.Write (some sock1) [0x00], Act.SetDeadline (some sock1) 60,
                       Act.LogInfo "A point(sock1) is ready", Act.Read (some sock1) (32 * 1024),
                       Act.LogInfo "dial B point with sock2 [%s]", Act.ConnUDP addr2,
                       Act.Write (some sock2) [0x00], Act.SetDeadline (some sock2) 60,
                       Act.LogInfo "B point(sock2) is ready"],
                      h.2.1, h.2.2, h.1, hn.1, hn.2, ?_, ?_, ?_⟩
                    · simp [hp, hr, hw, hn2, ConnUDP]
                    · simp [readsOf]
                    · simp [writesOf, hp]
          · cases dial1 with
            | error e => simp [hp, ConnTCP] at h
            | ok sock1 =>
              cases dial2 with
              | error e => simp [hp, hr, hn2, ConnTCP] at h
              | ok sock2 =>
                simp [hp, hr, hn2, hw, ConnTCP] at h
                refine ⟨sock1, sock2,
                  [Act.LogInfo "dial A point with sock1 [%s]", Act.ConnTCP addr1,
                   Act.LogInfo "A point(sock1) is ready", Act.Read (some sock1) (32 * 1024),
                   Act.LogInfo "dial B point with sock2 [%s]", Act.ConnTCP addr2,
                   Act.LogInfo "B point(sock2) is ready"],
                  h.2.1, h.2.2, h.1, hn.1, hn.2, ?_, ?_, ?_⟩
                · simp [hp, hr, hw, hn2, ConnTCP]
                · simp [readsOf]
                · simp [writesOf, hp]
        · by_cases hp : proto = PORTFORWARD_PROTO_UDP <;> cases dial1 <;> cases knock1 <;>
            cases dial2 <;> cases knock2 <;>
            simp [hp, hr, hn, hw, ConnUDP, ConnTCP] at h
    · by_cases hp : proto = PORTFORWARD_PROTO_UDP <;> cases dial1 <;> cases knock1 <;>
        simp [hp, hr, ConnUDP, ConnTCP] at h
  · simp at h

/-- Witness of the amended C9 with protocol UDP: A answers "PING". -/
theorem ConnConn_first_packet_witness :
    Act.ConnectSock 1 (some 1) (some 2) ∈
      (ConnConn.iter PORTFORWARD_PROTO_UDP (str "a:1") (str "b:2") 1 pingWorld).2 ∧
    ∃ sock1 sock2 pre,
      some 1 = some sock1 ∧ some 2 = some sock2 ∧ 1 = 1 ∧
      0 ≤ (pingWorld.read1 ConnConn.newBuf).2.1 ∧
      (pingWorld.read1 ConnConn.newBuf).2.1 ≤ 32 * 1024 ∧
      (ConnConn.iter PORTFORWARD_PROTO_UDP (str "a:1") (str "b:2") 1 pingWorld).2 =
        pre ++ [Act.Write (some sock2)
                  ((pingWorld.read1 ConnConn.newBuf).1.take
                    (pingWorld.read1 ConnConn.newBuf).2.1.toNat),
                Act.ConnectSock 1 (some sock1) (some sock2)] ∧
      readsOf pre = [Act.Read (some sock1) (32 * 1024)] ∧
      writesOf pre =
        if PORTFORWARD_PROTO_UDP = PORTFORWARD_PROTO_UDP then
          [Act.Write (some sock1) [0x00], Act.Write (some sock2) [0x00]]
        else [] :=
  have hmem : Act.ConnectSock 1 (some 1) (some 2) ∈
      (ConnConn.iter PORTFORWARD_PROTO_UDP (str "a:1") (str "b:2") 1 pingWorld).2 := by
    simp [ConnConn.iter, pingWorld, ConnUDP]
  ⟨hmem, ConnConn_first_packet _ _ _ _ _ _ _ _ hmem⟩

/-! ### `UDPDistribute` -/

/-- What `Read` returns on an established pseudo-connection with a datagram
waiting: the length of the datagram, not of what fitted in the buffer. -/
theorem UDPDistribute.Read_established (this : UDPDistribute) (data : List Nat)
    (rest : List (List Nat)) (b : List Nat)
    (he : this.Established = true) (hc : this.Cache = data :: rest) :
    this.Read b = { this := { this with Cache := rest }, b := (copy b data).1,
                    n := data.length, err := none } := by
  simp [UDPDistribute.Read, he, hc]

theorem copy_length (b data : List Nat) : (copy b data).1.length = b.length := by
  simp [copy]
  omega

theorem copy_fits (b data : List Nat) (h : data.length ≤ b.length) :
    (copy b data).1.take data.length = data := by
  simp [copy, List.take_append_eq_append_take, List.take_take, h]

/-- C5, as stated for every buffer, fails. With the datagram [1, 2, 3] waiting
and a buffer of two bytes, `Read` fills the buffer with [1, 2], returns no
error and the count 3, which is neither min(3, 2) nor at most the length of
the buffer. -/
theorem UDPDistribute_Read_count_exceeds_buffer :
    (UDPDistribute.Read
        { Established := true, Conn := 0, RAddr := str "10.0.0.1:9", Cache := [[1, 2, 3]] }
        [0, 0]).n = 3 ∧
    (UDPDistribute.Read
        { Established := true, Conn := 0, RAddr := str "10.0.0.1:9", Cache := [[1, 2, 3]] }
        [0, 0]).err = none ∧
    (UDPDistribute.Read
        { Established := true, Conn := 0, RAddr := str "10.0.0.1:9", Cache := [[1, 2, 3]] }
        [0, 0]).b = [1, 2] ∧
    ¬ (UDPDistribute.Read
        { Established := true, Conn := 0, RAddr := str "10.0.0.1:9", Cache := [[1, 2, 3]] }
        [0, 0]).n = min [1, 2, 3].length [0, 0].length ∧
    ¬ (UDPDistribute.Read
        { Established := true, Conn := 0, RAddr := str "10.0.0.1:9", Cache := [[1, 2, 3]] }
        [0, 0]).n ≤ [0, 0].length := by
  decide

/-- C5, amended. For every established pseudo-connection whose next datagram
is `data` and every buffer `b` at least as long as `data` (as the buffers of
`io.Copy`, of 32*1024 bytes, are for the datagrams of `ListenUDP`, cut from a
buffer of 32*1024 bytes), `Read(b)` takes the datagram out of the channel and
returns `n = len(data) = min(len(data), len(b))` with no error; `n` is at most
`len(b)`, the first `n` bytes of `b` are those of `data`, and `b` keeps its
length. -/
theorem UDPDistribute_Read_within_buffer (this : UDPDistribute) (data : List Nat)
    (rest : List (List Nat)) (b : List Nat)
    (he : this.Established = true) (hc : this.Cache = data :: rest)
    (hfit : data.length ≤ b.length) :
    (this.Read b).n = min data.length b.length ∧
    (this.Read b).n ≤ b.length ∧
    (this.Read b).err = none ∧
    (this.Read b).b.take (this.Read b).n = data.take (this.Read b).n ∧
    (this.Read b).b.length = b.length ∧
    (this.Read b).this.Cache = rest := by
  rw [UDPDistribute.Read_established this data rest b he hc]
  refine ⟨?_, hfit, rfl, ?_, copy_length b data, rfl⟩
  · simp [hfit]
  · simp only [copy_fits b data hfit, List.take_length]

/-- Witness of the amended C5: a datagram of one byte and a buffer of two. -/
theorem UDPDistribute_Read_within_buffer_witness :
    demuxConn.Established = true ∧ demuxConn.Cache = [1] :: [] ∧
    ([1] : List Nat).length ≤ ([0, 0] : List Nat).length ∧
    ((demuxConn.Read [0, 0]).n = min ([1] : List Nat).length ([0, 0] : List Nat).length ∧
    (demuxConn.Read [0, 0]).n ≤ ([0, 0] : List Nat).length ∧
    (demuxConn.Read [0, 0]).err = none ∧
    (demuxConn.Read [0, 0]).b.take (demuxConn.Read [0, 0]).n =
      ([1] : List Nat).take (demuxConn.Read [0, 0]).n ∧
    (demuxConn.Read [0, 0]).b.length = ([0, 0] : List Nat).length ∧
    (demuxConn.Read [0, 0]).this.Cache = []) :=
  ⟨rfl, rfl, by decide,
   UDPDistribute_Read_within_buffer demuxConn [1] [] [0, 0] rfl rfl (by decide)⟩

/-! ### The map and the heap -/

@[simp] theorem heapSet_same (h : Nat → Option UDPDistribute) (p : Nat) (d : UDPDistribute) :
    heapSet h p d p = some d := by
  simp [heapSet]

theorem heapSet_other (h : Nat → Option UDPDistribute) (p q : Nat) (d : UDPDistribute)
    (hq : q ≠ p) : heapSet h p d q = h q := by
  simp [heapSet, hq]

theorem mapGet_mapDelete (t : List (GoStr × Nat)) (k k1 : GoStr) :
    mapGet (mapDelete t k) k1 = if k1 = k then none else mapGet t k1 := by
  induction t with
  | nil => simp [mapDelete, mapGet]
  | cons e t ih =>
    obtain ⟨a, v⟩ := e
    unfold mapDelete at ih ⊢
    by_cases ha : a = k
    · subst ha
      by_cases hk : k1 = a
      · simp [List.filter, mapGet, hk] at ih ⊢
        simpa [hk] using ih
      · have hk2 : ¬ a = k1 := fun e => hk e.symm
        simp [List.filter, mapGet, hk, hk2] at ih ⊢
        simpa [hk] using ih
    · by_cases hk : k1 = k
      · subst hk
        have : ¬ a = k1 := ha
        simp [List.filter, mapGet, ha] at ih ⊢
        simpa using ih
      · by_cases hak : a = k1
        · simp [List.filter, mapGet, ha, hak, hk]
        · simp [List.filter, mapGet, ha, hak, hk] at ih ⊢
          simpa [hk] using ih

theorem mapGet_mapSet (t : List (GoStr × Nat)) (k k1 : GoStr) (v : Nat) :
    mapGet (mapSet t k v) k1 = if k1 = k then some v else mapGet t k1 := by
  by_cases hk : k1 = k
  · simp [mapSet, mapGet, hk]
  · have hk2 : ¬ k = k1 := fun e => hk e.symm
    simp [mapSet, mapGet, hk, hk2, mapGet_mapDelete]

theorem mapDelete_mapDelete (t : List (GoStr × Nat)) (k : GoStr) :
    mapDelete (mapDelete t k) k = mapDelete t k := by
  simp [mapDelete, List.filter_filter]

/-! ### One iteration of `ListenUDP` -/

/-- The three ways an iteration of `ListenUDP` with a datagram can go. -/
theorem ListenUDP.recv_cases (st : UDPListener) (addr : GoStr) (buf : List Nat)
    (hwf : st.WF) :
    (∃ p d, mapGet st.table addr = some p ∧ st.heap p = some d ∧ d.Established = true ∧
        d.Cache.length < 16 ∧
        ListenUDP.recv st addr buf =
          { st := { st with heap := heapSet st.heap p { d with Cache := d.Cache ++ [buf] } }
            enqueued := some p, emitted := none }) ∨
    (∃ p d, mapGet st.table addr = some p ∧ st.heap p = some d ∧ d.Established = true ∧
        16 ≤ d.Cache.length ∧
        ListenUDP.recv st addr buf =
          { st := { st with sending := some (p, buf) }, enqueued := none, emitted := none }) ∨
    ((mapGet st.table addr = none ∨
        ∃ p d, mapGet st.table addr = some p ∧ st.heap p = some d ∧ d.Established = false) ∧
      ListenUDP.recv st addr buf =
        { st := { st with
            heap := heapSet st.heap st.next
              { Established := true, Conn := st.serv, RAddr := addr, Cache := [buf] }
            next := st.next + 1
            table := mapSet st.table addr st.next }
          enqueued := some st.next, emitted := some st.next }) := by
  cases hg : mapGet st.table addr with
  | none =>
    right; right
    refine ⟨Or.inl rfl, ?_⟩
    simp [ListenUDP.recv, hg, ListenUDP.newConn, NewUDPDistribute]
  | some p =>
    obtain ⟨d, hd⟩ := hwf.2 addr p hg
    by_cases he : d.Established = true
    · by_cases hl : d.Cache.length < 16
      · left
        exact ⟨p, d, rfl, hd, he, hl, by simp [ListenUDP.recv, hg, hd, he, chanSend, cacheCap, hl]⟩
      · right; left
        exact ⟨p, d, rfl, hd, he, by omega,
          by simp [ListenUDP.recv, hg, hd, he, chanSend, cacheCap, hl]⟩
    · right; right
      have he2 : d.Established = false := by simpa using he
      refine ⟨Or.inr ⟨p, d, rfl, hd, he2⟩, ?_⟩
      simp [ListenUDP.recv, hg, hd, he2, ListenUDP.newConn, NewUDPDistribute, mapSet,
        mapDelete_mapDelete]

theorem ListenUDP.init_WF (serv : Nat) : (ListenUDP.init serv).WF := by
  constructor
  · intro q _; rfl
  · intro k p h; simp [ListenUDP.init, mapGet] at h

theorem ListenUDP.recv_WF (st : UDPListener) (addr : GoStr) (buf : List Nat)
    (hwf : st.WF) : (ListenUDP.recv st addr buf).st.WF := by
  rcases ListenUDP.recv_cases st addr buf hwf with
    ⟨p, d, _, hd, _, _, hr⟩ | ⟨p, d, _, _, _, _, hr⟩ | ⟨_, hr⟩
  · rw [hr]
    constructor
    · intro q hq
      have hne : q ≠ p := by
        intro e; subst e
        have := hwf.1 q hq
        simp [hd] at this
      simpa [heapSet_other _ _ _ _ hne] using hwf.1 q hq
    · intro k p1 hk
      by_cases e : p1 = p
      · subst e; exact ⟨_, heapSet_same _ _ _⟩
      · obtain ⟨d1, hd1⟩ := hwf.2 k p1 hk
        exact ⟨d1, by simpa [heapSet_other _ _ _ _ e] using hd1⟩
  · rw [hr]; exact hwf
  · rw [hr]
    constructor
    · intro q hq
      have hq1 : st.next + 1 ≤ q := hq
      have hne : q ≠ st.next := by omega
      simpa [heapSet_other _ _ _ _ hne] using hwf.1 q (by omega)
    · intro k p1 hk
      simp only [mapGet_mapSet] at hk
      by_cases e : p1 = st.next
      · subst e; exact ⟨_, heapSet_same _ _ _⟩
      · by_cases hka : k = addr
        · simp [hka] at hk; exact absurd hk.symm e
        · simp only [hka, if_false] at hk
          obtain ⟨d1, hd1⟩ := hwf.2 k p1 hk
          exact ⟨d1, by simpa [heapSet_other _ _ _ _ e] using hd1⟩

/-- C6. One iteration of `ListenUDP` on a datagram `buf` from `addr`, in a
state whose table points to pseudo-connections made before. A pseudo-connection
is sent on `clientc` exactly when the table has no entry for `addr` or the
entry is not established. With an established entry nothing is sent on
`clientc`, the table is unchanged, no other pseudo-connection changes, and the
datagram is sent on the channel of the entry: appended to what it holds when it
holds fewer than 16, and else the listener waits in that send. Otherwise the
pseudo-connection sent on `clientc` is a new one (a pointer not in use before)
with `Established = true`, peer address `addr` and a channel holding exactly
`buf`; it is the table entry for `addr`; the entries of other addresses and
the other pseudo-connections are unchanged. -/
theorem ListenUDP_recv_demux (st : UDPListener) (addr : GoStr) (buf : List Nat)
    (hwf : st.WF) :
    ((ListenUDP.recv st addr buf).emitted ≠ none ↔
      (mapGet st.table addr = none ∨
        ∃ p d, mapGet st.table addr = some p ∧ st.heap p = some d ∧ d.Established = false)) ∧
    (∀ p d, mapGet st.table addr = some p → st.heap p = some d → d.Established = true →
      (ListenUDP.recv st addr buf).emitted = none ∧
      (ListenUDP.recv st addr buf).st.table = st.table ∧
      (∀ q, q ≠ p → (ListenUDP.recv st addr buf).st.heap q = st.heap q) ∧
      (if d.Cache.length < 16 then
        (ListenUDP.recv st addr buf).st.heap p = some { d with Cache := d.Cache ++ [buf] } ∧
        (ListenUDP.recv st addr buf).enqueued = some p ∧
        (ListenUDP.recv st addr buf).st.sending = st.sending
       else
        (ListenUDP.recv st addr buf).st.heap p = some d ∧
        (ListenUDP.recv st addr buf).enqueued = none ∧
        (ListenUDP.recv st addr buf).st.sending = some (p, buf))) ∧
    ((ListenUDP.recv st addr buf).emitted ≠ none →
      (ListenUDP.recv st addr buf).emitted = some st.next ∧
      st.heap st.next = none ∧
      (ListenUDP.recv st addr buf).st.heap st.next =
        some { Established := true, Conn := st.serv, RAddr := addr, Cache := [buf] } ∧
      mapGet (ListenUDP.recv st addr buf).st.table addr = some st.next ∧
      (∀ k, k ≠ addr →
        mapGet (ListenUDP.recv st addr buf).st.table k = mapGet st.table k) ∧
      (∀ q, q ≠ st.next → (ListenUDP.recv st addr buf).st.heap q = st.heap q)) := by
  rcases ListenUDP.recv_cases st addr buf hwf with
    ⟨p, d, hg, hd, he, hl, hr⟩ | ⟨p, d, hg, hd, he, hl, hr⟩ | ⟨hc, hr⟩
  · rw [hr]
    refine ⟨?_, ?_, ?_⟩
    · simp [hg, hd, he]
    · intro p1 d1 hg1 hd1 _
      have e1 : p1 = p := by rw [hg] at hg1; exact (Option.some.inj hg1).symm
      subst e1
      have e2 : d1 = d := by rw [hd] at hd1; exact (Option.some.inj hd1).symm
      subst e2
      refine ⟨rfl, rfl, fun q hq => heapSet_other _ _ _ _ hq, ?_⟩
      simp [hl]
    · intro h; exact absurd rfl h
  · rw [hr]
    refine ⟨?_, ?_, ?_⟩
    · simp [hg, hd, he]
    · intro p1 d1 hg1 hd1 _
      have e1 : p1 = p := by rw [hg] at hg1; exact (Option.some.inj hg1).symm
      subst e1
      have e2 : d1 = d := by rw [hd] at hd1; exact (Option.some.inj hd1).symm
      subst e2
      refine ⟨rfl, rfl, fun q _ => rfl, ?_⟩
      have : ¬ d1.Cache.length < 16 := by omega
      simp [this, hd]
    · intro h; exact absurd rfl h
  · rw [hr]
    refine ⟨?_, ?_, ?_⟩
    · exact ⟨fun _ => hc, fun _ => by simp⟩
    · intro p1 d1 hg1 hd1 he1
      rcases hc with hc | ⟨p2, d2, hg2, hd2, he2⟩
      · rw [hc] at hg1; exact absurd hg1 (by simp)
      · rw [hg2] at hg1
        have e1 : p2 = p1 := Option.some.inj hg1
        subst e1
        rw [hd2] at hd1
        have e2 : d2 = d1 := Option.some.inj hd1
        subst e2
        rw [he2] at he1
        exact absurd he1 (by simp)
    · intro _
      refine ⟨rfl, hwf.1 st.next (le_refl _), heapSet_same _ _ _, ?_, ?_, ?_⟩
      · simp [mapGet_mapSet]
      · intro k hk; simp [mapGet_mapSet, hk]
      · intro q hq; exact heapSet_other _ _ _ _ hq

/-- Witness of C6 on a second datagram of a peer with an established entry. -/
theorem ListenUDP_recv_demux_witness :
    demuxState.WF ∧
    (((ListenUDP.recv demuxState (str "10.0.0.1:9") [2]).emitted ≠ none ↔
      (mapGet demuxState.table (str "10.0.0.1:9") = none ∨
        ∃ p d, mapGet demuxState.table (str "10.0.0.1:9") = some p ∧
          demuxState.heap p = some d ∧ d.Established = false)) ∧
    (∀ p d, mapGet demuxState.table (str "10.0.0.1:9") = some p →
        demuxState.heap p = some d → d.Established = true →
      (ListenUDP.recv demuxState (str "10.0.0.1:9") [2]).emitted = none ∧
      (ListenUDP.recv demuxState (str "10.0.0.1:9") [2]).st.table = demuxState.table ∧
      (∀ q, q ≠ p →
        (ListenUDP.recv demuxState (str "10.0.0.1:9") [2]).st.heap q = demuxState.heap q) ∧
      (if d.Cache.length < 16 then
        (ListenUDP.recv demuxState (str "10.0.0.1:9") [2]).st.heap p =
          some { d with Cache := d.Cache ++ [[2]] } ∧
        (ListenUDP.recv demuxState (str "10.0.0.1:9") [2]).enqueued = some p ∧
        (ListenUDP.recv demuxState (str "10.0.0.1:9") [2]).st.sending = demuxState.sending
       else
        (ListenUDP.recv demuxState (str "10.0.0.1:9") [2]).st.heap p = some d ∧
        (ListenUDP.recv demuxState (str "10.0.0.1:9") [2]).enqueued = none ∧
        (ListenUDP.recv demuxState (str "10.0.0.1:9") [2]).st.sending = some (p, [2]))) ∧
    ((ListenUDP.recv demuxState (str "10.0.0.1:9") [2]).emitted ≠ none →
      (ListenUDP.recv demuxState (str "10.0.0.1:9") [2]).emitted = some demuxState.next ∧
      demuxState.heap demuxState.next = none ∧
      (ListenUDP.recv demuxState (str "10.0.0.1:9") [2]).st.heap demuxState.next =
        some { Established := true, Conn := demuxState.serv, RAddr := (str "10.0.0.1:9"),
               Cache := [[2]] } ∧
      mapGet (ListenUDP.recv demuxState (str "10.0.0.1:9") [2]).st.table (str "10.0.0.1:9") =
        some demuxState.next ∧
      (∀ k, k ≠ (str "10.0.0.1:9") →
        mapGet (ListenUDP.recv demuxState (str "10.0.0.1:9") [2]).st.table k =
          mapGet demuxState.table k) ∧
      (∀ q, q ≠ demuxState.next →
        (ListenUDP.recv demuxState (str "10.0.0.1:9") [2]).st.heap q = demuxState.heap q))) :=
  ⟨ListenUDP.recv_WF _ _ _ (ListenUDP.init_WF 0),
   ListenUDP_recv_demux demuxState (str "10.0.0.1:9") [2]
     (ListenUDP.recv_WF _ _ _ (ListenUDP.init_WF 0))⟩

/-! ### What a run shows -/

theorem enqueuedTo_append (p : Nat) (xs ys : List UEv) :
    enqueuedTo p (xs ++ ys) = enqueuedTo p xs ++ enqueuedTo p ys := by
  induction xs with
  | nil => rfl
  | cons x xs ih =>
    cases x <;> simp [enqueuedTo, ih]
    split_ifs <;> simp

theorem delivered_append (p : Nat) (xs ys : List UEv) :
    delivered p (xs ++ ys) = delivered p xs ++ delivered p ys := by
  induction xs with
  | nil => rfl
  | cons x xs ih =>
    cases x with
    | readRet q b n err =>
      cases err with
      | none => simp only [List.cons_append, delivered]; split_ifs <;> simp [ih]
      | some e => simp [delivered, ih]
    | _ => simp [delivered, ih]

theorem fromPeer_append (addr : GoStr) (xs ys : List UEv) :
    fromPeer addr (xs ++ ys) = fromPeer addr xs ++ fromPeer addr ys := by
  induction xs with
  | nil => rfl
  | cons x xs ih =>
    cases x <;> simp [fromPeer, ih]
    split_ifs <;> simp

theorem creator_append (p : Nat) (xs ys : List UEv) :
    creator p (xs ++ ys) =
      match creator p xs with
      | some addr => some addr
      | none => creator p ys := by
  induction xs with
  | nil => rfl
  | cons x xs ih =>
    cases x <;> simp [creator, ih]
    split_ifs <;> simp

theorem arrivalsSince_append (p : Nat) (xs ys : List UEv) :
    arrivalsSince p (xs ++ ys) =
      match creator p xs with
      | some addr => arrivalsSince p xs ++ fromPeer addr ys
      | none => arrivalsSince p ys := by
  induction xs with
  | nil => rfl
  | cons x xs ih =>
    cases x <;> simp [creator, arrivalsSince, ih]
    split_ifs <;> simp [fromPeer_append]

theorem quiet_projections (evs : List UEv) (hq : ∀ ev ∈ evs, ev.quiet) (p : Nat)
    (addr : GoStr) :
    enqueuedTo p evs = [] ∧ delivered p evs = [] ∧ fromPeer addr evs = [] ∧
    creator p evs = none ∧ arrivalsSince p evs = [] := by
  induction evs with
  | nil => simp [enqueuedTo, delivered, fromPeer, creator, arrivalsSince]
  | cons e es ih =>
    have h1 := hq e (by simp)
    have h2 := ih (fun ev hev => hq ev (by simp [hev]))
    cases e with
    | arrived a b em => exact absurd h1 (by simp [UEv.quiet])
    | enqueued q b => exact absurd h1 (by simp [UEv.quiet])
    | readRet q b n err =>
      cases err with
      | none => exact absurd h1 (by simp [UEv.quiet])
      | some e => simpa [enqueuedTo, delivered, fromPeer, creator, arrivalsSince] using h2
    | writeRet q s n err =>
      simpa [enqueuedTo, delivered, fromPeer, creator, arrivalsSince] using h2
    | closeRet q err =>
      simpa [enqueuedTo, delivered, fromPeer, creator, arrivalsSince] using h2


/-! ### The invariant of the system -/

theorem heapSet_some {h : Nat → Option UDPDistribute} {p0 p : Nat} {d1 d : UDPDistribute}
    (hs : heapSet h p0 d1 p = some d) : (p = p0 ∧ d = d1) ∨ (p ≠ p0 ∧ h p = some d) := by
  by_cases e : p = p0
  · left
    subst e
    simp at hs
    exact ⟨rfl, hs.symm⟩
  · right
    rw [heapSet_other _ _ _ _ e] at hs
    exact ⟨e, hs⟩

theorem heapSet_none {h : Nat → Option UDPDistribute} {p0 p : Nat} {d1 : UDPDistribute}
    (hs : heapSet h p0 d1 p = none) : p ≠ p0 ∧ h p = none := by
  by_cases e : p = p0
  · subst e; simp at hs
  · rw [heapSet_other _ _ _ _ e] at hs
    exact ⟨e, hs⟩

theorem UDP.Inv.init (serv : Nat) : UDP.Inv (ListenUDP.init serv) [] where
  wf := ListenUDP.init_WF serv
  cap := by intro p d h; simp [ListenUDP.init] at h
  key := by intro k p d h; simp [ListenUDP.init, mapGet] at h
  pend := by intro p buf h; simp [ListenUDP.init] at h
  queue := by intro p d h; simp [ListenUDP.init] at h
  made := by intro p; simp [ListenUDP.init, creator]
  unborn := by intro p _; simp [enqueuedTo, delivered]
  first := by intro p d h; simp [ListenUDP.init] at h
  order := by intro p d h; simp [ListenUDP.init] at h

/-- Events that are quiet leave the invariant as it is. -/
theorem UDP.Inv.quiet {st : UDPListener} {tr : List UEv} (hI : UDP.Inv st tr)
    (evs : List UEv) (hq : ∀ ev ∈ evs, ev.quiet) : UDP.Inv st (tr ++ evs) := by
  have hp := quiet_projections evs hq
  have e1 : ∀ p, enqueuedTo p (tr ++ evs) = enqueuedTo p tr := by
    intro p; simp [enqueuedTo_append, (hp p []).1]
  have e2 : ∀ p, delivered p (tr ++ evs) = delivered p tr := by
    intro p; simp [delivered_append, (hp p []).2.1]
  have e3 : ∀ p, creator p (tr ++ evs) = creator p tr := by
    intro p
    rw [creator_append, (hp p []).2.2.2.1]
    cases creator p tr <;> rfl
  have e4 : ∀ p, arrivalsSince p (tr ++ evs) = arrivalsSince p tr := by
    intro p
    rw [arrivalsSince_append]
    cases hc : creator p tr with
    | none =>
      have h1 := hI.made p
      rw [hc] at h1
      have h2 : st.heap p = none := by
        cases hh : st.heap p with
        | none => rfl
        | some d => rw [hh] at h1; simp at h1
      simp only [(hp p []).2.2.2.2]
      have : arrivalsSince p tr = [] := by
        have := arrivalsSince_append p tr []
        rw [hc] at this
        simpa [arrivalsSince] using this
      exact this.symm
    | some addr => simp [(hp p addr).2.2.1]
  exact {
    wf := hI.wf
    cap := hI.cap
    key := hI.key
    pend := hI.pend
    queue := by intro p d h; rw [e1, e2]; exact hI.queue p d h
    made := by intro p; rw [e3]; exact hI.made p
    unborn := by intro p h; rw [e1, e2]; exact hI.unborn p h
    first := by
      intro p d h
      obtain ⟨buf, rest, h1, h2⟩ := hI.first p d h
      exact ⟨buf, rest, by rw [e1]; exact h1, by simp [h2]⟩
    order := by intro p d h; rw [e1, e4]; exact hI.order p d h }

/-- A change of a pseudo-connection that keeps its channel and its address
leaves the invariant as it is. -/
theorem UDP.Inv.touch {st : UDPListener} {tr : List UEv} (hI : UDP.Inv st tr)
    (p0 : Nat) (d0 d1 : UDPDistribute) (h0 : st.heap p0 = some d0)
    (hC : d1.Cache = d0.Cache) (hR : d1.RAddr = d0.RAddr) :
    UDP.Inv { st with heap := heapSet st.heap p0 d1 } tr := by
  have old : ∀ p d, heapSet st.heap p0 d1 p = some d →
      ∃ d2, st.heap p = some d2 ∧ d.Cache = d2.Cache ∧ d.RAddr = d2.RAddr := by
    intro p d h
    rcases heapSet_some h with ⟨e1, e2⟩ | ⟨_, e2⟩
    · subst e1; subst e2; exact ⟨d0, h0, hC, hR⟩
    · exact ⟨d, e2, rfl, rfl⟩
  exact {
    wf := by
      constructor
      · intro q hq
        have hne : q ≠ p0 := by
          intro e; subst e
          have := hI.wf.1 q hq
          simp [h0] at this
        simpa [heapSet_other _ _ _ _ hne] using hI.wf.1 q hq
      · intro k p hk
        by_cases e : p = p0
        · subst e; exact ⟨_, heapSet_same _ _ _⟩
        · obtain ⟨d2, hd2⟩ := hI.wf.2 k p hk
          exact ⟨d2, by simpa [heapSet_other _ _ _ _ e] using hd2⟩
    cap := by
      intro p d h
      obtain ⟨d2, h2, hc, _⟩ := old p d h
      rw [hc]; exact hI.cap p d2 h2
    key := by
      intro k p d hk h
      obtain ⟨d2, h2, _, hr⟩ := old p d h
      rw [hr]; exact hI.key k p d2 hk h2
    pend := by
      intro p buf h
      obtain ⟨d2, h2, h3⟩ := hI.pend p buf h
      by_cases e : p = p0
      · subst e
        rw [h0] at h2
        have e2 : d0 = d2 := Option.some.inj h2
        subst e2
        exact ⟨d1, heapSet_same _ _ _, by rw [hR]; exact h3⟩
      · exact ⟨d2, by simpa [heapSet_other _ _ _ _ e] using h2, h3⟩
    queue := by
      intro p d h
      obtain ⟨d2, h2, hc, _⟩ := old p d h
      rw [hc]; exact hI.queue p d2 h2
    made := by
      intro p
      rw [hI.made p]
      by_cases e : p = p0
      · subst e; simp [h0, hR]
      · simp [heapSet_other _ _ _ _ e]
    unborn := by
      intro p h
      exact hI.unborn p (heapSet_none h).2
    first := by
      intro p d h
      obtain ⟨d2, h2, _, hr⟩ := old p d h
      rw [hr]; exact hI.first p d2 h2
    order := by
      intro p d h
      obtain ⟨d2, h2, _, hr⟩ := old p d h
      rw [hr]; exact hI.order p d2 h2 }

theorem arrivalsSince_of_creator_none (p : Nat) (tr : List UEv) (h : creator p tr = none) :
    arrivalsSince p tr = [] := by
  have := arrivalsSince_append p tr []
  rw [h] at this
  simpa [arrivalsSince] using this

theorem UDPListener.WF_heapSet {st : UDPListener} (hwf : st.WF) (p0 : Nat)
    (d0 d1 : UDPDistribute) (h0 : st.heap p0 = some d0) :
    UDPListener.WF { st with heap := heapSet st.heap p0 d1 } := by
  constructor
  · intro q hq
    have hne : q ≠ p0 := by
      intro e; subst e
      have := hwf.1 q hq
      simp [h0] at this
    simpa [heapSet_other _ _ _ _ hne] using hwf.1 q hq
  · intro k p hk
    by_cases e : p = p0
    · subst e; exact ⟨_, heapSet_same _ _ _⟩
    · obtain ⟨d2, hd2⟩ := hwf.2 k p hk
      exact ⟨d2, by simpa [heapSet_other _ _ _ _ e] using hd2⟩

/-- A successful read moves the oldest datagram of the channel to the reader. -/
theorem UDP.Inv.readOk {st : UDPListener} {tr : List UEv} (hI : UDP.Inv st tr)
    (p0 : Nat) (d0 : UDPDistribute) (data : List Nat) (rest : List (List Nat))
    (b1 : List Nat) (n : Nat)
    (h0 : st.heap p0 = some d0) (hC : d0.Cache = data :: rest) (hb : b1.take n = data) :
    UDP.Inv { st with heap := heapSet st.heap p0 { d0 with Cache := rest } }
      (tr ++ [UEv.readRet p0 b1 n none]) := by
  have e1 : ∀ p, enqueuedTo p (tr ++ [UEv.readRet p0 b1 n none]) = enqueuedTo p tr := by
    intro p; simp [enqueuedTo_append, enqueuedTo]
  have e2 : ∀ p, delivered p (tr ++ [UEv.readRet p0 b1 n none]) =
      delivered p tr ++ if p0 = p then [data] else [] := by
    intro p
    rw [delivered_append]
    by_cases e : p0 = p <;> simp [delivered, e, hb]
  have e3 : ∀ p, creator p (tr ++ [UEv.readRet p0 b1 n none]) = creator p tr := by
    intro p
    rw [creator_append]
    cases creator p tr <;> simp [creator]
  have e4 : ∀ p, arrivalsSince p (tr ++ [UEv.readRet p0 b1 n none]) = arrivalsSince p tr := by
    intro p
    rw [arrivalsSince_append]
    cases hc : creator p tr with
    | none => simp [arrivalsSince, arrivalsSince_of_creator_none p tr hc]
    | some addr => simp [fromPeer]
  have old : ∀ p d, heapSet st.heap p0 { d0 with Cache := rest } p = some d →
      (p = p0 ∧ d = { d0 with Cache := rest }) ∨ (p ≠ p0 ∧ st.heap p = some d) :=
    fun p d h => heapSet_some h
  have hcap := hI.cap p0 d0 h0
  rw [hC] at hcap
  exact {
    wf := UDPListener.WF_heapSet hI.wf p0 d0 _ h0
    cap := by
      intro p d h
      rcases old p d h with ⟨_, e⟩ | ⟨_, e⟩
      · subst e; simp at hcap ⊢; omega
      · exact hI.cap p d e
    key := by
      intro k p d hk h
      rcases old p d h with ⟨e1, e⟩ | ⟨_, e⟩
      · subst e; subst e1; exact hI.key k p d0 hk h0
      · exact hI.key k p d hk e
    pend := by
      intro p buf h
      obtain ⟨d2, h2, h3⟩ := hI.pend p buf h
      by_cases e : p = p0
      · subst e
        rw [h0] at h2
        have e2 : d0 = d2 := Option.some.inj h2
        subst e2
        exact ⟨_, heapSet_same _ _ _, h3⟩
      · exact ⟨d2, by simpa [heapSet_other _ _ _ _ e] using h2, h3⟩
    queue := by
      intro p d h
      rw [e1, e2]
      rcases old p d h with ⟨e3, e⟩ | ⟨e3, e⟩
      · subst e; subst e3
        have := hI.queue p d0 h0
        rw [hC] at this
        simp [this]
      · have hne : ¬ p0 = p := fun e => e3 e.symm
        simp [hne, hI.queue p d e]
    made := by
      intro p
      rw [e3, hI.made p]
      by_cases e : p = p0
      · subst e; simp [h0]
      · simp [heapSet_other _ _ _ _ e]
    unborn := by
      intro p h
      obtain ⟨hne, hn⟩ := heapSet_none h
      have hne2 : ¬ p0 = p := fun e => hne e.symm
      rw [e1, e2]
      simp [hne2, hI.unborn p hn]
    first := by
      intro p d h
      rw [e1]
      rcases old p d h with ⟨e3, e⟩ | ⟨_, e⟩
      · subst e; subst e3
        obtain ⟨buf, r, h1, h2⟩ := hI.first p d0 h0
        exact ⟨buf, r, h1, by simp [h2]⟩
      · obtain ⟨buf, r, h1, h2⟩ := hI.first p d e
        exact ⟨buf, r, h1, by simp [h2]⟩
    order := by
      intro p d h
      rw [e1, e4]
      rcases old p d h with ⟨e3, e⟩ | ⟨_, e⟩
      · subst e; subst e3; exact hI.order p d0 h0
      · exact hI.order p d e }

/-- The listener gets a datagram for an entry of the table and starts to
send it on the channel of the entry. -/
theorem UDP.Inv.block {st : UDPListener} {tr : List UEv} (hI : UDP.Inv st tr)
    (addr : GoStr) (buf : List Nat) (p0 : Nat) (d0 : UDPDistribute)
    (hs : st.sending = none) (hg : mapGet st.table addr = some p0)
    (h0 : st.heap p0 = some d0) :
    UDP.Inv { st with sending := some (p0, buf) } (tr ++ [UEv.arrived addr buf none]) := by
  have e1 : ∀ p, enqueuedTo p (tr ++ [UEv.arrived addr buf none]) = enqueuedTo p tr := by
    intro p; simp [enqueuedTo_append, enqueuedTo]
  have e2 : ∀ p, delivered p (tr ++ [UEv.arrived addr buf none]) = delivered p tr := by
    intro p; simp [delivered_append, delivered]
  have e3 : ∀ p, creator p (tr ++ [UEv.arrived addr buf none]) = creator p tr := by
    intro p
    rw [creator_append]
    cases creator p tr <;> simp [creator]
  have e4 : ∀ p d, st.heap p = some d → arrivalsSince p (tr ++ [UEv.arrived addr buf none]) =
      arrivalsSince p tr ++ if addr = d.RAddr then [buf] else [] := by
    intro p d h
    rw [arrivalsSince_append, hI.made p, h]
    by_cases e : addr = d.RAddr <;> simp [fromPeer, e]
  have hk0 : d0.RAddr = addr := hI.key addr p0 d0 hg h0
  have hp0 : ∀ p, pending st p = [] := by intro p; simp [pending, hs]
  exact {
    wf := hI.wf
    cap := hI.cap
    key := hI.key
    pend := by
      intro p b h
      simp only [Option.some.injEq, Prod.mk.injEq] at h
      obtain ⟨h1, h2⟩ := h
      subst h1; subst h2
      exact ⟨d0, h0, by rw [hk0]; exact hg⟩
    queue := by intro p d h; rw [e1, e2]; exact hI.queue p d h
    made := by intro p; rw [e3]; exact hI.made p
    unborn := by intro p h; rw [e1, e2]; exact hI.unborn p h
    first := by
      intro p d h
      obtain ⟨b, r, h1, h2⟩ := hI.first p d h
      exact ⟨b, r, by rw [e1]; exact h1, by simp [h2]⟩
    order := by
      intro p d h
      obtain ⟨o1, o2⟩ := hI.order p d h
      rw [e1, e4 p d h]
      constructor
      · intro ht
        have ht' : mapGet st.table d.RAddr = some p := ht
        have := o1 ht'
        rw [hp0] at this
        by_cases e : addr = d.RAddr
        · have ep : p0 = p := by
            rw [← e, hg] at ht'
            exact Option.some.inj ht'
          subst ep
          simp [pending, e, this]
        · have ep : ¬ p0 = p := by
            intro ep; subst ep
            rw [h0] at h
            have : d0 = d := Option.some.inj h
            subst this
            exact e hk0.symm
          simp [pending, e, ep, this]
      · intro ht
        have := o2 ht
        exact this.trans (List.prefix_append _ _) }


/-- The send the listener waits in goes through. -/
theorem UDP.Inv.resume {st : UDPListener} {tr : List UEv} (hI : UDP.Inv st tr)
    (buf : List Nat) (p0 : Nat) (d0 : UDPDistribute)
    (hs : st.sending = some (p0, buf)) (h0 : st.heap p0 = some d0)
    (hl : d0.Cache.length < 16) :
    UDP.Inv { st with heap := heapSet st.heap p0 { d0 with Cache := d0.Cache ++ [buf] },
                        sending := none }
      (tr ++ [UEv.enqueued p0 buf]) := by
  have e1 : ∀ p, enqueuedTo p (tr ++ [UEv.enqueued p0 buf]) =
      enqueuedTo p tr ++ if p0 = p then [buf] else [] := by
    intro p
    rw [enqueuedTo_append]
    by_cases e : p0 = p <;> simp [enqueuedTo, e]
  have e2 : ∀ p, delivered p (tr ++ [UEv.enqueued p0 buf]) = delivered p tr := by
    intro p; simp [delivered_append, delivered]
  have e3 : ∀ p, creator p (tr ++ [UEv.enqueued p0 buf]) = creator p tr := by
    intro p
    rw [creator_append]
    cases creator p tr <;> simp [creator]
  have e4 : ∀ p, arrivalsSince p (tr ++ [UEv.enqueued p0 buf]) = arrivalsSince p tr := by
    intro p
    rw [arrivalsSince_append]
    cases hc : creator p tr with
    | none => simp [arrivalsSince, arrivalsSince_of_creator_none p tr hc]
    | some addr => simp [fromPeer]
  have old : ∀ p d, heapSet st.heap p0 { d0 with Cache := d0.Cache ++ [buf] } p = some d →
      (p = p0 ∧ d = { d0 with Cache := d0.Cache ++ [buf] }) ∨ (p ≠ p0 ∧ st.heap p = some d) :=
    fun p d h => heapSet_some h
  obtain ⟨d2, hd2, htab⟩ := hI.pend p0 buf hs
  have ed : d2 = d0 := by rw [h0] at hd2; exact (Option.some.inj hd2).symm
  subst ed
  have hpend : ∀ p, pending st p = if p0 = p then [buf] else [] := by
    intro p; simp [pending, hs]
  exact {
    wf := UDPListener.WF_heapSet hI.wf p0 d2 _ h0
    cap := by
      intro p d h
      rcases old p d h with ⟨_, e⟩ | ⟨_, e⟩
      · subst e; simp; omega
      · exact hI.cap p d e
    key := by
      intro k p d hk h
      rcases old p d h with ⟨e1, e⟩ | ⟨_, e⟩
      · subst e; subst e1; exact hI.key k p d2 hk h0
      · exact hI.key k p d hk e
    pend := by intro p b h; simp at h
    queue := by
      intro p d h
      rw [e1, e2]
      rcases old p d h with ⟨e3, e⟩ | ⟨e3, e⟩
      · subst e; subst e3
        simp [hI.queue p d2 h0]
      · have hne : ¬ p0 = p := fun e => e3 e.symm
        simp [hne, hI.queue p d e]
    made := by
      intro p
      rw [e3, hI.made p]
      by_cases e : p = p0
      · subst e; simp [h0]
      · simp [heapSet_other _ _ _ _ e]
    unborn := by
      intro p h
      obtain ⟨hne, hn⟩ := heapSet_none h
      have hne2 : ¬ p0 = p := fun e => hne e.symm
      rw [e1, e2]
      simp [hne2, hI.unborn p hn]
    first := by
      intro p d h
      rw [e1]
      rcases old p d h with ⟨e3, e⟩ | ⟨_, e⟩
      · subst e; subst e3
        obtain ⟨b, r, h1, h2⟩ := hI.first p d2 h0
        exact ⟨b, r ++ [buf], by simp [h1], by simp [h2]⟩
      · obtain ⟨b, r, h1, h2⟩ := hI.first p d e
        exact ⟨b, r ++ (if p0 = p then [buf] else []), by simp [h1], by simp [h2]⟩
    order := by
      intro p d h
      rw [e1, e4]
      have hpn : pending { st with
          heap := (heapSet st.heap p0 { d2 with Cache := d2.Cache ++ [buf] })
          sending := none } p = [] := by
        simp [pending]
      rw [hpn]
      rcases old p d h with ⟨e3, e⟩ | ⟨e3, e⟩
      · subst e; subst e3
        obtain ⟨o1, _⟩ := hI.order p d2 h0
        have := o1 htab
        rw [hpend] at this
        constructor
        · intro _; simpa using this
        · intro hc; exact absurd htab hc
      · have hne : ¬ p0 = p := fun e => e3 e.symm
        obtain ⟨o1, o2⟩ := hI.order p d e
        have hp := hpend p
        simp only [hne, if_false] at hp ⊢
        rw [hp] at o1
        exact ⟨fun ht => by simpa using o1 ht, by simpa using o2⟩ }

/-- The listener makes a new pseudo-connection for a datagram. -/
theorem UDP.Inv.fresh {st : UDPListener} {tr : List UEv} (hI : UDP.Inv st tr)
    (addr : GoStr) (buf : List Nat) (hs : st.sending = none) :
    UDP.Inv
      { st with
        heap := heapSet st.heap st.next
          { Established := true, Conn := st.serv, RAddr := addr, Cache := [buf] }
        next := st.next + 1
        table := mapSet st.table addr st.next }
      (tr ++ [UEv.arrived addr buf (some st.next), UEv.enqueued st.next buf]) := by
  have hn : st.heap st.next = none := hI.wf.1 st.next (le_refl _)
  have hcn : creator st.next tr = none := by rw [hI.made, hn]; rfl
  have e1 : ∀ p, enqueuedTo p
      (tr ++ [UEv.arrived addr buf (some st.next), UEv.enqueued st.next buf]) =
      enqueuedTo p tr ++ if st.next = p then [buf] else [] := by
    intro p
    rw [enqueuedTo_append]
    by_cases e : st.next = p <;> simp [enqueuedTo, e]
  have e2 : ∀ p, delivered p
      (tr ++ [UEv.arrived addr buf (some st.next), UEv.enqueued st.next buf]) =
      delivered p tr := by
    intro p; simp [delivered_append, delivered]
  have e3 : ∀ p, p ≠ st.next → creator p
      (tr ++ [UEv.arrived addr buf (some st.next), UEv.enqueued st.next buf]) =
      creator p tr := by
    intro p hp
    have hp2 : ¬ st.next = p := fun e => hp e.symm
    rw [creator_append]
    cases creator p tr <;> simp [creator, hp2]
  have e4 : ∀ p d, st.heap p = some d → arrivalsSince p
      (tr ++ [UEv.arrived addr buf (some st.next), UEv.enqueued st.next buf]) =
      arrivalsSince p tr ++ if addr = d.RAddr then [buf] else [] := by
    intro p d h
    rw [arrivalsSince_append, hI.made p, h]
    by_cases e : addr = d.RAddr <;> simp [fromPeer, e]
  have old : ∀ p d, heapSet st.heap st.next
      { Established := true, Conn := st.serv, RAddr := addr, Cache := [buf] } p = some d →
      (p = st.next ∧ d = { Established := true, Conn := st.serv, RAddr := addr, Cache := [buf] })
      ∨ (p ≠ st.next ∧ st.heap p = some d) :=
    fun p d h => heapSet_some h
  have hp0 : ∀ p, pending st p = [] := by intro p; simp [pending, hs]
  have hp1 : ∀ p, pending { st with
        heap := heapSet st.heap st.next
          { Established := true, Conn := st.serv, RAddr := addr, Cache := [buf] }
        next := st.next + 1
        table := mapSet st.table addr st.next } p = [] := by
    intro p; simp [pending, hs]
  exact {
    wf := by
      constructor
      · intro q hq
        have hq1 : st.next + 1 ≤ q := hq
        have hne : q ≠ st.next := by omega
        simpa [heapSet_other _ _ _ _ hne] using hI.wf.1 q (by omega)
      · intro k p1 hk
        simp only [mapGet_mapSet] at hk
        by_cases e : p1 = st.next
        · subst e; exact ⟨_, heapSet_same _ _ _⟩
        · by_cases hka : k = addr
          · simp [hka] at hk; exact absurd hk.symm e
          · simp only [hka, if_false] at hk
            obtain ⟨d1, hd1⟩ := hI.wf.2 k p1 hk
            exact ⟨d1, by simpa [heapSet_other _ _ _ _ e] using hd1⟩
    cap := by
      intro p d h
      rcases old p d h with ⟨_, e⟩ | ⟨_, e⟩
      · subst e; simp
      · exact hI.cap p d e
    key := by
      intro k p d hk h
      simp only [mapGet_mapSet] at hk
      rcases old p d h with ⟨e1, e⟩ | ⟨e1, e⟩
      · subst e
        by_cases hka : k = addr
        · exact hka.symm
        · simp only [hka, if_false] at hk
          obtain ⟨d1, hd1⟩ := hI.wf.2 k p hk
          rw [e1, hn] at hd1
          exact absurd hd1 (by simp)
      · by_cases hka : k = addr
        · simp [hka] at hk; exact absurd hk.symm e1
        · simp only [hka, if_false] at hk
          exact hI.key k p d hk e
    pend := by
      intro p b h
      have h' : st.sending = some (p, b) := h
      rw [hs] at h'
      exact absurd h' (by simp)
    queue := by
      intro p d h
      rw [e1, e2]
      rcases old p d h with ⟨e3, e⟩ | ⟨e3, e⟩
      · subst e; subst e3
        simp [hI.unborn st.next hn]
      · have hne : ¬ st.next = p := fun e => e3 e.symm
        simp [hne, hI.queue p d e]
    made := by
      intro p
      by_cases e : p = st.next
      · subst e
        rw [creator_append, hcn]
        simp [creator]
      · rw [e3 p e, hI.made p]
        simp [heapSet_other _ _ _ _ e]
    unborn := by
      intro p h
      obtain ⟨hne, hnn⟩ := heapSet_none h
      have hne2 : ¬ st.next = p := fun e => hne e.symm
      rw [e1, e2]
      simp [hne2, hI.unborn p hnn]
    first := by
      intro p d h
      rw [e1]
      rcases old p d h with ⟨e3, e⟩ | ⟨_, e⟩
      · subst e; subst e3
        exact ⟨buf, [], by simp [hI.unborn st.next hn], by simp⟩
      · obtain ⟨b, r, h1, h2⟩ := hI.first p d e
        exact ⟨b, r ++ (if st.next = p then [buf] else []), by simp [h1], by simp [h2]⟩
    order := by
      intro p d h
      rw [hp1, e1]
      simp only [mapGet_mapSet]
      rcases old p d h with ⟨e3, e⟩ | ⟨e3, e⟩
      · subst e; subst e3
        have : arrivalsSince st.next
            (tr ++ [UEv.arrived addr buf (some st.next), UEv.enqueued st.next buf]) = [buf] := by
          rw [arrivalsSince_append, hcn]
          simp [arrivalsSince, fromPeer]
        rw [this]
        simp [hI.unborn st.next hn]
      · have hne : ¬ st.next = p := fun e => e3 e.symm
        obtain ⟨o1, o2⟩ := hI.order p d e
        rw [hp0] at o1
        rw [e4 p d e]
        simp only [hne, if_false, List.append_nil]
        by_cases ha : d.RAddr = addr
        · have hpre : enqueuedTo p tr <+: arrivalsSince p tr := by
            by_cases ht : mapGet st.table d.RAddr = some p
            · have := o1 ht
              simp only [List.append_nil] at this
              rw [this]
            · exact o2 ht
          simp only [ha, if_true]
          constructor
          · intro hc
            exact absurd (Option.some.inj hc) hne
          · intro _
            exact hpre.trans (List.prefix_append _ _)
        · have ha2 : ¬ addr = d.RAddr := fun e => ha e.symm
          simp only [ha, ha2, if_false, List.append_nil]
          exact ⟨fun ht => by simpa using o1 ht, o2⟩ }


/-- Every step of the system keeps the invariant. -/
theorem UDP.step_inv {st : UDPListener} {tr : List UEv} (hI : UDP.Inv st tr)
    (a : UAct) (ha : ∀ ev ∈ (UDP.step st a).2, ev.roomy) :
    UDP.Inv (UDP.step st a).1 (tr ++ (UDP.step st a).2) := by
  cases a with
  | datagram addr buf =>
    cases hs : st.sending with
    | some x =>
      have : UDP.step st (.datagram addr buf) = (st, []) := by simp [UDP.step, hs]
      rw [this]; simpa using hI
    | none =>
      have hstep : UDP.step st (.datagram addr buf) =
          ((ListenUDP.recv st addr buf).st,
            UEv.arrived addr buf (ListenUDP.recv st addr buf).emitted ::
              enqEvents (ListenUDP.recv st addr buf).enqueued buf) := by
        simp [UDP.step, hs]
      rw [hstep]
      rcases ListenUDP.recv_cases st addr buf hI.wf with
        ⟨p, d, hg, hd, _, hl, hr⟩ | ⟨p, d, hg, hd, _, _, hr⟩ | ⟨_, hr⟩
      · rw [hr]
        have h1 := hI.block addr buf p d hs hg hd
        have h2 := h1.resume buf p d rfl hd hl
        obtain ⟨serv, heap, next, table, sending⟩ := st
        simp only at hs
        subst hs
        rw [List.append_assoc] at h2
        exact h2
      · rw [hr]
        exact hI.block addr buf p d hs hg hd
      · rw [hr]
        exact hI.fresh addr buf hs
  | resume =>
    cases hs : st.sending with
    | none =>
      have : UDP.step st .resume = (st, []) := by simp [UDP.step, hs]
      rw [this]; simpa using hI
    | some x =>
      obtain ⟨p, buf⟩ := x
      obtain ⟨d, hd, _⟩ := hI.pend p buf hs
      by_cases hl : d.Cache.length < 16
      · have hstep : UDP.step st .resume =
            ({ st with heap := heapSet st.heap p { d with Cache := d.Cache ++ [buf] },
                       sending := none }, [UEv.enqueued p buf]) := by
          simp [UDP.step, hs, ListenUDP.resume, hd, chanSend, cacheCap, hl, enqEvents]
        rw [hstep]
        exact hI.resume buf p d hs hd hl
      · have hstep : UDP.step st .resume = (st, []) := by
          simp [UDP.step, hs, ListenUDP.resume, hd, chanSend, cacheCap, hl, enqEvents]
        rw [hstep]; simpa using hI
  | read p b =>
    cases hd : st.heap p with
    | none =>
      have : UDP.step st (.read p b) = (st, []) := by simp [UDP.step, hd]
      rw [this]; simpa using hI
    | some d =>
      by_cases he : d.Established = true
      · cases hc : d.Cache with
        | nil =>
          have hstep : UDP.step st (.read p b) =
              ({ st with heap := heapSet st.heap p d },
                [UEv.readRet p b 0 (some errTimeout)]) := by
            simp [UDP.step, hd, UDPDistribute.Read, he, hc]
          rw [hstep]
          exact (hI.touch p d d hd rfl rfl).quiet _ (by simp [UEv.quiet])
        | cons data rest =>
          have hstep : UDP.step st (.read p b) =
              ({ st with heap := heapSet st.heap p { d with Cache := rest } },
                [UEv.readRet p (copy b data).1 data.length none]) := by
            simp [UDP.step, hd, UDPDistribute.Read, he, hc]
          rw [hstep] at ha ⊢
          have hdl : data.length ≤ b.length := by
            have := ha _ (List.mem_singleton.2 rfl)
            simpa [UEv.roomy, copy_length] using this
          exact hI.readOk p d data rest _ _ hd hc (copy_fits b data hdl)
      · have hstep : UDP.step st (.read p b) =
            ({ st with heap := heapSet st.heap p d },
              [UEv.readRet p b 0 (some errClosed)]) := by
          simp [UDP.step, hd, UDPDistribute.Read, he]
        rw [hstep]
        exact (hI.touch p d d hd rfl rfl).quiet _ (by simp [UEv.quiet])
  | write p b sock =>
    cases hd : st.heap p with
    | none =>
      have : UDP.step st (.write p b sock) = (st, []) := by simp [UDP.step, hd]
      rw [this]; simpa using hI
    | some d =>
      have hstep : UDP.step st (.write p b sock) =
          (st, [UEv.writeRet p (d.Write b sock).sent (d.Write b sock).n (d.Write b sock).err]) := by
        simp [UDP.step, hd]
      rw [hstep]
      exact hI.quiet _ (by simp [UEv.quiet])
  | close p =>
    cases hd : st.heap p with
    | none =>
      have : UDP.step st (.close p) = (st, []) := by simp [UDP.step, hd]
      rw [this]; simpa using hI
    | some d =>
      have hstep : UDP.step st (.close p) =
          ({ st with heap := heapSet st.heap p { d with Established := false } },
            [UEv.closeRet p none]) := by
        simp [UDP.step, hd, UDPDistribute.Close]
      rw [hstep]
      exact (hI.touch p d { d with Established := false } hd rfl rfl).quiet
        [UEv.closeRet p none] (by simp [UEv.quiet])

/-- Every run of the system keeps the invariant. -/
theorem UDP.run_inv (acts : List UAct) :
    ∀ {st : UDPListener} {tr : List UEv}, UDP.Inv st tr →
      (∀ ev ∈ (UDP.run st acts).2, ev.roomy) →
      UDP.Inv (UDP.run st acts).1 (tr ++ (UDP.run st acts).2) := by
  induction acts with
  | nil => intro st tr hI _; simpa [UDP.run] using hI
  | cons a acts ih =>
    intro st tr hI hf
    have h1 := UDP.step_inv hI a (fun ev hev => hf ev (by simp [UDP.run, hev]))
    have h2 := ih h1 (fun ev hev => hf ev (by simp [UDP.run, hev]))
    simpa [UDP.run, List.append_assoc] using h2

/-- C7. In every run of the listener and the users of its pseudo-connections
from the start of the listener, in which the buffer of every successful read
was at least as large as the datagram returned: no channel ever holds more than
16 datagrams; and for every pseudo-connection `p` made, the datagrams its
successful reads returned are a prefix of the datagrams put in its channel,
which are a prefix of the datagrams that arrived from its peer from the one
that made the listener create `p` on, that datagram being the first put in the
channel. Being prefixes, they are in arrival order with none duplicated,
dropped in the middle or reordered. -/
theorem udp_reads_in_arrival_order (serv : Nat) (acts : List UAct)
    (hf : ∀ ev ∈ (UDP.run (ListenUDP.init serv) acts).2, ev.roomy) :
    (∀ p d, (UDP.run (ListenUDP.init serv) acts).1.heap p = some d → d.Cache.length ≤ 16) ∧
    (∀ p d, (UDP.run (ListenUDP.init serv) acts).1.heap p = some d →
      delivered p (UDP.run (ListenUDP.init serv) acts).2
        <+: enqueuedTo p (UDP.run (ListenUDP.init serv) acts).2 ∧
      enqueuedTo p (UDP.run (ListenUDP.init serv) acts).2
        <+: arrivalsSince p (UDP.run (ListenUDP.init serv) acts).2 ∧
      ∃ buf,
        UEv.arrived d.RAddr buf (some p) ∈ (UDP.run (ListenUDP.init serv) acts).2 ∧
        (enqueuedTo p (UDP.run (ListenUDP.init serv) acts).2).head? = some buf ∧
        (arrivalsSince p (UDP.run (ListenUDP.init serv) acts).2).head? = some buf) := by
  have hI := UDP.run_inv acts (UDP.Inv.init serv) hf
  simp only [List.nil_append] at hI
  refine ⟨hI.cap, ?_⟩
  intro p d h
  obtain ⟨o1, o2⟩ := hI.order p d h
  have hpre : enqueuedTo p (UDP.run (ListenUDP.init serv) acts).2
      <+: arrivalsSince p (UDP.run (ListenUDP.init serv) acts).2 := by
    by_cases ht : mapGet (UDP.run (ListenUDP.init serv) acts).1.table d.RAddr = some p
    · rw [o1 ht]; exact List.prefix_append _ _
    · exact o2 ht
  refine ⟨?_, hpre, ?_⟩
  · rw [hI.queue p d h]; exact List.prefix_append _ _
  · obtain ⟨buf, rest, h1, h2⟩ := hI.first p d h
    refine ⟨buf, h2, by simp [h1], ?_⟩
    obtain ⟨t, ht⟩ := hpre
    rw [← ht, h1]
    simp

/-- Witness of C7 on a run with two pseudo-connections of one peer. -/
theorem udp_reads_in_arrival_order_witness :
    (∀ ev ∈ (UDP.run (ListenUDP.init 0) demuxActs).2, ev.roomy) ∧
    ((∀ p d, (UDP.run (ListenUDP.init 0) demuxActs).1.heap p = some d → d.Cache.length ≤ 16) ∧
    (∀ p d, (UDP.run (ListenUDP.init 0) demuxActs).1.heap p = some d →
      delivered p (UDP.run (ListenUDP.init 0) demuxActs).2
        <+: enqueuedTo p (UDP.run (ListenUDP.init 0) demuxActs).2 ∧
      enqueuedTo p (UDP.run (ListenUDP.init 0) demuxActs).2
        <+: arrivalsSince p (UDP.run (ListenUDP.init 0) demuxActs).2 ∧
      ∃ buf,
        UEv.arrived d.RAddr buf (some p) ∈ (UDP.run (ListenUDP.init 0) demuxActs).2 ∧
        (enqueuedTo p (UDP.run (ListenUDP.init 0) demuxActs).2).head? = some buf ∧
        (arrivalsSince p (UDP.run (ListenUDP.init 0) demuxActs).2).head? = some buf)) :=
  ⟨by decide, udp_reads_in_arrival_order 0 demuxActs (by decide)⟩

/-! ### `Close` -/

/-- After `p.Close()`, every step keeps `p` closed, with a channel that only
grows by what the listener puts in, and shows only returns of a closed
pseudo-connection for `p`. -/
theorem UDP.step_closed {st : UDPListener} {p : Nat} {c0 : List (List Nat)}
    {tr : List UEv} (a : UAct) (hwf : st.WF)
    (hK : ∃ d1, st.heap p = some d1 ∧ d1.Established = false ∧
      d1.Cache = c0 ++ enqueuedTo p tr) :
    (UDP.step st a).1.WF ∧
    (∃ d1, (UDP.step st a).1.heap p = some d1 ∧ d1.Established = false ∧
      d1.Cache = c0 ++ enqueuedTo p (tr ++ (UDP.step st a).2)) ∧
    (∀ ev ∈ (UDP.step st a).2, ev.closedFor p) := by
  obtain ⟨d1, h1, he1, hc1⟩ := hK
  have same : ∀ evs : List UEv, enqueuedTo p evs = [] →
      ∃ d2, st.heap p = some d2 ∧ d2.Established = false ∧
        d2.Cache = c0 ++ enqueuedTo p (tr ++ evs) := by
    intro evs h
    exact ⟨d1, h1, he1, by rw [enqueuedTo_append, h, List.append_nil]; exact hc1⟩
  cases a with
  | datagram addr buf =>
    cases hs : st.sending with
    | some x =>
      have : UDP.step st (.datagram addr buf) = (st, []) := by simp [UDP.step, hs]
      rw [this]
      exact ⟨hwf, same [] rfl, by simp⟩
    | none =>
      have hstep : UDP.step st (.datagram addr buf) =
          ((ListenUDP.recv st addr buf).st,
            UEv.arrived addr buf (ListenUDP.recv st addr buf).emitted ::
              enqEvents (ListenUDP.recv st addr buf).enqueued buf) := by
        simp [UDP.step, hs]
      rw [hstep]
      refine ⟨ListenUDP.recv_WF st addr buf hwf, ?_⟩
      rcases ListenUDP.recv_cases st addr buf hwf with
        ⟨q, d, hg, hd, he, hl, hr⟩ | ⟨q, d, hg, hd, he, _, hr⟩ | ⟨_, hr⟩
      · rw [hr]
        have hne : p ≠ q := by
          intro e; subst e
          rw [h1] at hd
          have : d1 = d := Option.some.inj hd
          subst this
          rw [he1] at he
          exact absurd he (by simp)
        have hne2 : ¬ q = p := fun e => hne e.symm
        refine ⟨⟨d1, by simpa [heapSet_other _ _ _ _ hne] using h1, he1, ?_⟩, ?_⟩
        · simp [enqueuedTo_append, enqueuedTo, enqEvents, hne2, hc1]
        · simp [enqEvents, UEv.closedFor]
      · rw [hr]
        refine ⟨⟨d1, h1, he1, ?_⟩, ?_⟩
        · simp [enqueuedTo_append, enqueuedTo, enqEvents, hc1]
        · simp [enqEvents, UEv.closedFor]
      · rw [hr]
        have hne : p ≠ st.next := by
          intro e
          have := hwf.1 st.next (le_refl _)
          rw [← e, h1] at this
          exact absurd this (by simp)
        have hne2 : ¬ st.next = p := fun e => hne e.symm
        refine ⟨⟨d1, by simpa [heapSet_other _ _ _ _ hne] using h1, he1, ?_⟩, ?_⟩
        · simp [enqueuedTo_append, enqueuedTo, enqEvents, hne2, hc1]
        · simp [enqEvents, UEv.closedFor]
  | resume =>
    cases hs : st.sending with
    | none =>
      have : UDP.step st .resume = (st, []) := by simp [UDP.step, hs]
      rw [this]
      exact ⟨hwf, same [] rfl, by simp⟩
    | some x =>
      obtain ⟨q, buf⟩ := x
      cases hd : st.heap q with
      | none =>
        have : UDP.step st .resume = (st, []) := by
          simp [UDP.step, hs, ListenUDP.resume, hd, enqEvents]
        rw [this]
        exact ⟨hwf, same [] rfl, by simp⟩
      | some d =>
        by_cases hl : d.Cache.length < 16
        · have hstep : UDP.step st .resume =
              ({ st with heap := heapSet st.heap q { d with Cache := d.Cache ++ [buf] },
                         sending := none }, [UEv.enqueued q buf]) := by
            simp [UDP.step, hs, ListenUDP.resume, hd, chanSend, cacheCap, hl, enqEvents]
          rw [hstep]
          refine ⟨UDPListener.WF_heapSet hwf q d _ hd, ?_, by simp [UEv.closedFor]⟩
          by_cases e : q = p
          · subst e
            rw [h1] at hd
            have : d1 = d := Option.some.inj hd
            subst this
            exact ⟨_, heapSet_same _ _ _, he1, by simp [enqueuedTo_append, enqueuedTo, hc1]⟩
          · have e2 : p ≠ q := fun h => e h.symm
            exact ⟨d1, by simpa [heapSet_other _ _ _ _ e2] using h1, he1,
              by simp [enqueuedTo_append, enqueuedTo, e, hc1]⟩
        · have hstep : UDP.step st .resume = (st, []) := by
            simp [UDP.step, hs, ListenUDP.resume, hd, chanSend, cacheCap, hl, enqEvents]
          rw [hstep]
          exact ⟨hwf, same [] rfl, by simp⟩
  | read q b =>
    cases hd : st.heap q with
    | none =>
      have : UDP.step st (.read q b) = (st, []) := by simp [UDP.step, hd]
      rw [this]
      exact ⟨hwf, same [] rfl, by simp⟩
    | some d =>
      have hstep : UDP.step st (.read q b) =
          ({ st with heap := heapSet st.heap q (d.Read b).this },
            [UEv.readRet q (d.Read b).b (d.Read b).n (d.Read b).err]) := by
        simp [UDP.step, hd]
      rw [hstep]
      refine ⟨UDPListener.WF_heapSet hwf q d _ hd, ?_, ?_⟩
      · by_cases e : q = p
        · subst e
          rw [h1] at hd
          have : d1 = d := Option.some.inj hd
          subst this
          refine ⟨_, heapSet_same _ _ _, ?_, ?_⟩
          · simp [UDPDistribute.Read, he1]
          · simp [UDPDistribute.Read, he1, enqueuedTo_append, enqueuedTo, hc1]
        · have e2 : p ≠ q := fun h => e h.symm
          exact ⟨d1, by simpa [heapSet_other _ _ _ _ e2] using h1, he1,
            by simp [enqueuedTo_append, enqueuedTo, hc1]⟩
      · intro ev hev
        simp only [List.mem_singleton] at hev
        subst hev
        intro e
        subst e
        rw [h1] at hd
        have : d1 = d := Option.some.inj hd
        subst this
        simp [UDPDistribute.Read, he1]
  | write q b sock =>
    cases hd : st.heap q with
    | none =>
      have : UDP.step st (.write q b sock) = (st, []) := by simp [UDP.step, hd]
      rw [this]
      exact ⟨hwf, same [] rfl, by simp⟩
    | some d =>
      have hstep : UDP.step st (.write q b sock) =
          (st, [UEv.writeRet q (d.Write b sock).sent (d.Write b sock).n
            (d.Write b sock).err]) := by
        simp [UDP.step, hd]
      rw [hstep]
      refine ⟨hwf, same _ (by simp [enqueuedTo]), ?_⟩
      intro ev hev
      simp only [List.mem_singleton] at hev
      subst hev
      intro e
      subst e
      rw [h1] at hd
      have : d1 = d := Option.some.inj hd
      subst this
      simp [UDPDistribute.Write, he1]
  | close q =>
    cases hd : st.heap q with
    | none =>
      have : UDP.step st (.close q) = (st, []) := by simp [UDP.step, hd]
      rw [this]
      exact ⟨hwf, same [] rfl, by simp⟩
    | some d =>
      have hstep : UDP.step st (.close q) =
          ({ st with heap := heapSet st.heap q { d with Established := false } },
            [UEv.closeRet q none]) := by
        simp [UDP.step, hd, UDPDistribute.Close]
      rw [hstep]
      refine ⟨UDPListener.WF_heapSet hwf q d _ hd, ?_, by simp [UEv.closedFor]⟩
      by_cases e : q = p
      · subst e
        rw [h1] at hd
        have : d1 = d := Option.some.inj hd
        subst this
        exact ⟨_, heapSet_same _ _ _, rfl, by simp [enqueuedTo_append, enqueuedTo, hc1]⟩
      · have e2 : p ≠ q := fun h => e h.symm
        exact ⟨d1, by simpa [heapSet_other _ _ _ _ e2] using h1, he1,
          by simp [enqueuedTo_append, enqueuedTo, hc1]⟩

theorem UDP.run_closed {p : Nat} {c0 : List (List Nat)} (acts : List UAct) :
    ∀ {st : UDPListener} {tr : List UEv}, st.WF →
      (∃ d1, st.heap p = some d1 ∧ d1.Established = false ∧
        d1.Cache = c0 ++ enqueuedTo p tr) →
      (∃ d1, (UDP.run st acts).1.heap p = some d1 ∧ d1.Established = false ∧
        d1.Cache = c0 ++ enqueuedTo p (tr ++ (UDP.run st acts).2)) ∧
      (∀ ev ∈ (UDP.run st acts).2, ev.closedFor p) := by
  induction acts with
  | nil => intro st tr _ hK; simpa [UDP.run] using hK
  | cons a acts ih =>
    intro st tr hwf hK
    obtain ⟨h1, h2, h3⟩ := UDP.step_closed a hwf hK
    obtain ⟨h4, h5⟩ := ih h1 h2
    refine ⟨by simpa [UDP.run, List.append_assoc] using h4, ?_⟩
    intro ev hev
    simp only [UDP.run, List.mem_append] at hev
    rcases hev with hev | hev
    · exact h3 ev hev
    · exact h5 ev hev

/-- C8. `Close` returns no error and sets `Established` to false, whatever
the state of the pseudo-connection. After `p.Close()`, in every run of the
system that follows: every `Read` and every `Write` of `p` returns 0 and the
error of a closed pseudo-connection, a `Write` hands no datagram to the socket,
and the channel of `p` stays what it was at the close followed by what the
listener put in since (no read takes anything out); `p` stays closed. -/
theorem closed_stays_closed (st : UDPListener) (p : Nat) (d : UDPDistribute)
    (acts : List UAct) (hwf : st.WF) (hp : st.heap p = some d) :
    (d.Close).2 = none ∧ (d.Close).1.Established = false ∧
    (d.Close).1.Cache = d.Cache ∧
    (UDP.step st (.close p)).1.heap p = some (d.Close).1 ∧
    (∀ ev ∈ (UDP.run (UDP.step st (.close p)).1 acts).2, ev.closedFor p) ∧
    (∃ d1, (UDP.run (UDP.step st (.close p)).1 acts).1.heap p = some d1 ∧
      d1.Established = false ∧
      d1.Cache = d.Cache ++ enqueuedTo p (UDP.run (UDP.step st (.close p)).1 acts).2) := by
  have hstep : UDP.step st (.close p) =
      ({ st with heap := heapSet st.heap p { d with Established := false } },
        [UEv.closeRet p none]) := by
    simp [UDP.step, hp, UDPDistribute.Close]
  refine ⟨rfl, rfl, rfl, by rw [hstep]; exact heapSet_same _ _ _, ?_⟩
  rw [hstep]
  have := @UDP.run_closed p d.Cache acts _ []
    (UDPListener.WF_heapSet hwf p d { d with Established := false } hp)
    ⟨_, heapSet_same _ _ _, rfl, by simp [enqueuedTo]⟩
  simpa using this.symm

/-- Witness of C8 on a pseudo-connection with one datagram in its channel. -/
theorem closed_stays_closed_witness :
    demuxState.WF ∧ demuxState.heap 0 = some demuxConn ∧
    ((demuxConn.Close).2 = none ∧ (demuxConn.Close).1.Established = false ∧
    (demuxConn.Close).1.Cache = demuxConn.Cache ∧
    (UDP.step demuxState (.close 0)).1.heap 0 = some (demuxConn.Close).1 ∧
    (∀ ev ∈ (UDP.run (UDP.step demuxState (.close 0)).1 closedActs).2, ev.closedFor 0) ∧
    (∃ d1, (UDP.run (UDP.step demuxState (.close 0)).1 closedActs).1.heap 0 = some d1 ∧
      d1.Established = false ∧
      d1.Cache = demuxConn.Cache ++
        enqueuedTo 0 (UDP.run (UDP.step demuxState (.close 0)).1 closedActs).2)) :=
  ⟨ListenUDP.recv_WF _ _ _ (ListenUDP.init_WF 0), rfl,
   closed_stays_closed demuxState 0 demuxConn closedActs
     (ListenUDP.recv_WF _ _ _ (ListenUDP.init_WF 0)) rfl⟩

/-! ### The loggers -/

/-- C12. `LogError` prints its line exactly when `LOG_LEVEL` is at least
`LOG_LEVEL_WARN` (3): at `LOG_LEVEL_ERROR` (2) it prints nothing while
`LogFatal` prints its line. Every other logger prints (one line, with its own
tag) exactly when `LOG_LEVEL` is at least its own level constant. -/
theorem LogError_gated_at_warn (LOG_LEVEL : Nat) (now msg : GoStr) :
    (LogError LOG_LEVEL now msg ≠ [] ↔ LOG_LEVEL_WARN ≤ LOG_LEVEL) ∧
    (LogError LOG_LEVEL now msg ≠ [] ↔ 3 ≤ LOG_LEVEL) ∧
    (LogError LOG_LEVEL now msg = [] ∨
      LogError LOG_LEVEL now msg = [logLine "ERROR" now msg]) ∧
    LogError LOG_LEVEL_ERROR now msg = [] ∧
    LogFatal LOG_LEVEL_ERROR now msg = [logLine "FATAL" now msg] ∧
    (LogFatal LOG_LEVEL now msg ≠ [] ↔ LOG_LEVEL_FATAL ≤ LOG_LEVEL) ∧
    (LogFatal LOG_LEVEL now msg = [] ∨
      LogFatal LOG_LEVEL now msg = [logLine "FATAL" now msg]) ∧
    (LogWarn LOG_LEVEL now msg ≠ [] ↔ LOG_LEVEL_WARN ≤ LOG_LEVEL) ∧
    (LogWarn LOG_LEVEL now msg = [] ∨
      LogWarn LOG_LEVEL now msg = [logLine "WARN" now msg]) ∧
    (LogInfo LOG_LEVEL now msg ≠ [] ↔ LOG_LEVEL_INFO ≤ LOG_LEVEL) ∧
    (LogInfo LOG_LEVEL now msg = [] ∨
      LogInfo LOG_LEVEL now msg = [logLine "INFO" now msg]) ∧
    (LogDebug LOG_LEVEL now msg ≠ [] ↔ LOG_LEVEL_DEBUG ≤ LOG_LEVEL) ∧
    (LogDebug LOG_LEVEL now msg = [] ∨
      LogDebug LOG_LEVEL now msg = [logLine "DEBUG" now msg]) := by
  have hline : str "[" ++ now ++ str "] [ERROR] " ++ msg = logLine "ERROR" now msg := by
    have : str "] [ERROR] " = str "] [" ++ str "ERROR" ++ str "] " := by decide
    simp [logLine, this]
  refine ⟨?_, ?_, ?_, ?_, ?_, ?_, ?_, ?_, ?_, ?_, ?_, ?_, ?_⟩
  · by_cases h : LOG_LEVEL < LOG_LEVEL_WARN <;> simp [LogError, h]
    omega
  · by_cases h : LOG_LEVEL < LOG_LEVEL_WARN <;> simp [LogError, h] <;>
      simp [LOG_LEVEL_WARN] at h ⊢ <;> omega
  · by_cases h : LOG_LEVEL < LOG_LEVEL_WARN
    · left; simp [LogError, h]
    · right; simp only [LogError, h, if_false, hline]
  · simp [LogError, LOG_LEVEL_ERROR, LOG_LEVEL_WARN]
  · simp [LogFatal, LOG_LEVEL_ERROR, LOG_LEVEL_FATAL]
  · by_cases h : LOG_LEVEL < LOG_LEVEL_FATAL <;> simp [LogFatal, h]
    omega
  · by_cases h : LOG_LEVEL < LOG_LEVEL_FATAL <;> simp [LogFatal, h]
  · by_cases h : LOG_LEVEL < LOG_LEVEL_WARN <;> simp [LogWarn, h]
    omega
  · by_cases h : LOG_LEVEL < LOG_LEVEL_WARN <;> simp [LogWarn, h]
  · by_cases h : LOG_LEVEL < LOG_LEVEL_INFO <;> simp [LogInfo, h]
    omega
  · by_cases h : LOG_LEVEL < LOG_LEVEL_INFO <;> simp [LogInfo, h]
  · by_cases h : LOG_LEVEL < LOG_LEVEL_DEBUG <;> simp [LogDebug, h]
    omega
  · by_cases h : LOG_LEVEL < LOG_LEVEL_DEBUG <;> simp [LogDebug, h]

/-! ### No `nil` stream is used -/

theorem release_nonNil (s1 s2 : Option Conn) : ∀ a ∈ release s1 s2, a.nonNil := by
  intro a ha
  unfold release at ha
  by_cases h1 : s1 = none <;> by_cases h2 : s2 = none <;>
    simp [h1, h2] at ha
  · subst ha; simpa [Act.nonNil] using h2
  · subst ha; simpa [Act.nonNil] using h1
  · rcases ha with ha | ha <;> subst ha
    · simpa [Act.nonNil] using h1
    · simpa [Act.nonNil] using h2

theorem ListenListen.pair_nonNil (st : LLState) :
    ∀ a ∈ (ListenListen.pair st).2, a.nonNil := by
  intro a ha
  unfold ListenListen.pair at ha
  by_cases h : st.sock1 = none ∨ st.sock2 = none
  · simp [h] at ha
  · simp only [h, if_false, List.mem_singleton] at ha
    subst ha
    push_neg at h
    exact h

theorem ListenListen_iter_nonNil (st : LLState) (e : LLEvent) :
    ∀ a ∈ (ListenListen.iter st e).2, a.nonNil := by
  intro a ha
  cases e with
  | stop =>
    simp only [ListenListen.iter, List.mem_append, List.mem_cons, List.mem_singleton,
      List.not_mem_nil, or_false] at ha
    rcases ha with (ha | ha) | ha
    · subst ha; simp [Act.nonNil]
    · subst ha; simp [Act.nonNil]
    · exact release_nonNil _ _ a ha
  | timeout =>
    simp only [ListenListen.iter, List.mem_append, List.mem_singleton] at ha
    rcases ha with ha | ha
    · subst ha; simp [Act.nonNil]
    · exact release_nonNil _ _ a ha
  | client1 c =>
    by_cases hc : c = none
    · simp [ListenListen.iter, hc] at ha
      subst ha; simp [Act.nonNil]
    · simp only [ListenListen.iter, hc, if_false, List.mem_append, List.mem_cons,
        List.mem_singleton, List.not_mem_nil, or_false] at ha
      rcases ha with (ha | ha) | ha
      · subst ha; simpa [Act.nonNil] using hc
      · subst ha; simp [Act.nonNil]
      · exact ListenListen.pair_nonNil _ a ha
  | client2 c =>
    by_cases hc : c = none
    · simp [ListenListen.iter, hc] at ha
      subst ha; simp [Act.nonNil]
    · simp only [ListenListen.iter, hc, if_false, List.mem_append, List.mem_cons,
        List.mem_singleton, List.not_mem_nil, or_false] at ha
      rcases ha with (ha | ha) | ha
      · subst ha; simpa [Act.nonNil] using hc
      · subst ha; simp [Act.nonNil]
      · exact ListenListen.pair_nonNil _ a ha

theorem ListenListen_loop_nonNil (es : List LLEvent) :
    ∀ st : LLState, ∀ a ∈ (ListenListen.loop st es).2, a.nonNil := by
  induction es with
  | nil => intro st a ha; simp [ListenListen.loop] at ha
  | cons e es ih =>
    intro st a ha
    have h1 := ListenListen_iter_nonNil st e
    unfold ListenListen.loop at ha
    cases hi : ListenListen.iter st e with
    | mk nx acts =>
      rw [hi] at ha h1
      cases nx with
      | none => exact h1 a ha
      | some st1 =>
        simp only [List.mem_append] at ha
        rcases ha with ha | ha
        · exact h1 a ha
        · exact ih st1 a ha

theorem ListenConn_iter_nonNil (proto : Nat) (addr2 : GoStr) (count : Nat) (e : LCEvent) :
    ∀ a ∈ (ListenConn.iter proto addr2 count e).2, a.nonNil := by
  intro a ha
  cases e with
  | stop =>
    simp [ListenConn.iter] at ha
    subst ha; simp [Act.nonNil]
  | client c dial =>
    by_cases hc : c = none
    · simp [ListenConn.iter, hc] at ha
      subst ha; simp [Act.nonNil]
    · cases dial with
      | error e =>
        simp only [ListenConn.iter, hc, if_false, List.mem_append, List.mem_cons,
          List.mem_singleton, List.not_mem_nil, or_false] at ha
        rcases ha with (ha | ha | ha | ha) | (ha | ha) <;> subst ha
        · simpa [Act.nonNil] using hc
        · simp [Act.nonNil]
        · simp [Act.nonNil]
        · split_ifs <;> simp [Act.nonNil]
        · simpa [Act.nonNil] using hc
        · simp [Act.nonNil]
      | ok s2 =>
        simp only [ListenConn.iter, hc, if_false, List.mem_append, List.mem_cons,
          List.mem_singleton, List.not_mem_nil, or_false] at ha
        rcases ha with (ha | ha | ha | ha) | (ha | ha) <;> subst ha
        · simpa [Act.nonNil] using hc
        · simp [Act.nonNil]
        · simp [Act.nonNil]
        · split_ifs <;> simp [Act.nonNil]
        · simp [Act.nonNil]
        · simpa [Act.nonNil] using hc

theorem ListenConn_loop_nonNil (proto : Nat) (addr2 : GoStr) (es : List LCEvent) :
    ∀ count : Nat, ∀ a ∈ (ListenConn.loop proto addr2 count es).2, a.nonNil := by
  induction es with
  | nil => intro count a ha; simp [ListenConn.loop] at ha
  | cons e es ih =>
    intro count a ha
    have h1 := ListenConn_iter_nonNil proto addr2 count e
    unfold ListenConn.loop at ha
    cases hi : ListenConn.iter proto addr2 count e with
    | mk nx acts =>
      rw [hi] at ha h1
      cases nx with
      | none => exact h1 a ha
      | some c =>
        simp only [List.mem_append] at ha
        rcases ha with ha | ha
        · exact h1 a ha
        · exact ih c a ha

/-- C15. In `ListenConn` and in `ListenListen`, for every sequence of events
of the `select` (clients, `nil` sentinels, timeouts, stop), every `RemoteAddr`
and every `Close` the driver calls is on a stream that is not `nil`, and both
members of every pair handed to `ConnectSock` are not `nil`. -/
theorem nil_sentinel_never_used (proto : Nat) (addr1 addr2 : GoStr)
    (es1 : List LCEvent) (es2 : List LLEvent) :
    (∀ a ∈ ListenConn proto addr1 addr2 es1, a.nonNil) ∧
    (∀ a ∈ ListenListen proto addr1 addr2 es2, a.nonNil) ∧
    (∀ sock, Act.RemoteAddr sock ∈ ListenConn proto addr1 addr2 es1 → sock ≠ none) ∧
    (∀ sock, Act.Close sock ∈ ListenConn proto addr1 addr2 es1 → sock ≠ none) ∧
    (∀ id s1 s2, Act.ConnectSock id s1 s2 ∈ ListenConn proto addr1 addr2 es1 →
      s1 ≠ none ∧ s2 ≠ none) ∧
    (∀ sock, Act.RemoteAddr sock ∈ ListenListen proto addr1 addr2 es2 → sock ≠ none) ∧
    (∀ sock, Act.Close sock ∈ ListenListen proto addr1 addr2 es2 → sock ≠ none) ∧
    (∀ id s1 s2, Act.ConnectSock id s1 s2 ∈ ListenListen proto addr1 addr2 es2 →
      s1 ≠ none ∧ s2 ≠ none) := by
  have hc : ∀ a ∈ ListenConn proto addr1 addr2 es1, a.nonNil := by
    intro a ha
    simp only [ListenConn, List.mem_append, List.mem_cons, List.mem_singleton,
      List.not_mem_nil, or_false] at ha
    rcases ha with (ha | ha) | ha
    · subst ha; simp [Act.nonNil]
    · subst ha; split_ifs <;> simp [Act.nonNil]
    · exact ListenConn_loop_nonNil proto addr2 es1 1 a ha
  have hl : ∀ a ∈ ListenListen proto addr1 addr2 es2, a.nonNil := by
    intro a ha
    simp only [ListenListen, List.mem_append, List.mem_cons, List.mem_singleton,
      List.not_mem_nil, or_false] at ha
    rcases ha with (ha | ha | ha | ha) | ha
    · subst ha; simp [Act.nonNil]
    · subst ha; split_ifs <;> simp [Act.nonNil]
    · subst ha; simp [Act.nonNil]
    · subst ha; split_ifs <;> simp [Act.nonNil]
    · exact ListenListen_loop_nonNil es2 _ a ha
  exact ⟨hc, hl, fun s h => hc _ h, fun s h => hc _ h, fun id s1 s2 h => hc _ h,
    fun s h => hl _ h, fun s h => hl _ h, fun id s1 s2 h => hl _ h⟩


/-! ### The ids of the pairs -/

theorem spliceIds_append (xs ys : List Act) :
    spliceIds (xs ++ ys) = spliceIds xs ++ spliceIds ys := by
  induction xs with
  | nil => rfl
  | cons x xs ih => cases x <;> simp [spliceIds, ih]

theorem release_spliceIds (s1 s2 : Option Conn) : spliceIds (release s1 s2) = [] := by
  unfold release
  by_cases h1 : s1 = none <;> by_cases h2 : s2 = none <;> simp [h1, h2, spliceIds]

/-- An iteration of `ConnConn` either hands one pair over, tagged with
`count`, and adds one to `count`, or hands none over and leaves `count`. -/
theorem ConnConn_iter_ids (proto : Nat) (addr1 addr2 : GoStr) (count : Nat) (w : CCWorld) :
    (spliceIds (ConnConn.iter proto addr1 addr2 count w).2 = [count] ∧
      (ConnConn.iter proto addr1 addr2 count w).1 = .next (count + 1)) ∨
    (spliceIds (ConnConn.iter proto addr1 addr2 count w).2 = [] ∧
      ((ConnConn.iter proto addr1 addr2 count w).1 = .next count ∨
       (ConnConn.iter proto addr1 addr2 count w).1 = .returned ∨
       (ConnConn.iter proto addr1 addr2 count w).1 = .crashed)) := by
  obtain ⟨stop, dial1, knock1, read1, dial2, knock2, write2⟩ := w
  simp only [ConnConn.iter]
  generalize read1 ConnConn.newBuf = r
  obtain ⟨buf, n, err⟩ := r
  simp only []
  generalize write2 (List.take n.toNat buf) = wr
  obtain ⟨wn, werr⟩ := wr
  by_cases hp : proto = PORTFORWARD_PROTO_UDP <;>
  cases stop <;> cases dial1 <;> cases knock1 <;> cases dial2 <;> cases knock2 <;>
  by_cases hr : err = none <;> by_cases hn : n < 0 ∨ 32768 < n <;>
  by_cases hw : werr = none <;>
  simp [hp, hr, hn, hw, spliceIds, ConnUDP, ConnTCP]

/-- An iteration of `ListenConn` either hands one pair over, tagged with
`count`, and adds one to `count`, or hands none over and leaves `count`. -/
theorem ListenConn_iter_ids (proto : Nat) (addr2 : GoStr) (count : Nat) (e : LCEvent) :
    (spliceIds (ListenConn.iter proto addr2 count e).2 = [count] ∧
      (ListenConn.iter proto addr2 count e).1 = some (count + 1)) ∨
    (spliceIds (ListenConn.iter proto addr2 count e).2 = [] ∧
      ((ListenConn.iter proto addr2 count e).1 = some count ∨
       (ListenConn.iter proto addr2 count e).1 = none)) := by
  cases e with
  | stop => right; simp [ListenConn.iter, spliceIds]
  | client c dial =>
    by_cases hc : c = none
    · right; simp [ListenConn.iter, hc, spliceIds]
    · by_cases hp : proto = PORTFORWARD_PROTO_UDP <;> cases dial <;>
        simp [ListenConn.iter, hc, hp, spliceIds]

/-- An iteration of `ListenListen` either hands one pair over, tagged with
`count`, and adds one to `count`, or hands none over and leaves `count`. -/
theorem ListenListen_iter_ids (st : LLState) (e : LLEvent) :
    (spliceIds (ListenListen.iter st e).2 = [st.count] ∧
      ∃ st1, (ListenListen.iter st e).1 = some st1 ∧ st1.count = st.count + 1) ∨
    (spliceIds (ListenListen.iter st e).2 = [] ∧
      ((ListenListen.iter st e).1 = none ∨
       ∃ st1, (ListenListen.iter st e).1 = some st1 ∧ st1.count = st.count)) := by
  obtain ⟨s1, s2, n⟩ := st
  cases e with
  | stop =>
    right
    simp [ListenListen.iter, spliceIds_append, release_spliceIds, spliceIds]
  | timeout =>
    right
    simp [ListenListen.iter, spliceIds_append, release_spliceIds, spliceIds]
  | client1 c =>
    cases c with
    | none => right; simp [ListenListen.iter, spliceIds]
    | some x =>
      cases s2 with
      | none => right; simp [ListenListen.iter, ListenListen.pair, spliceIds]
      | some y => left; simp [ListenListen.iter, ListenListen.pair, spliceIds]
  | client2 c =>
    cases c with
    | none => right; simp [ListenListen.iter, spliceIds]
    | some x =>
      cases s1 with
      | none => right; simp [ListenListen.iter, ListenListen.pair, spliceIds]
      | some y => left; simp [ListenListen.iter, ListenListen.pair, spliceIds]

theorem ConnConn_loop_ids (proto : Nat) (addr1 addr2 : GoStr) (ws : List CCWorld) :
    ∀ count : Nat, ∃ k,
      spliceIds (ConnConn.loop proto addr1 addr2 count ws) = List.range' count k := by
  induction ws with
  | nil => intro count; exact ⟨0, by simp [ConnConn.loop, spliceIds]⟩
  | cons w ws ih =>
    intro count
    have h := ConnConn_iter_ids proto addr1 addr2 count w
    unfold ConnConn.loop
    cases hi : ConnConn.iter proto addr1 addr2 count w with
    | mk nx acts =>
      rw [hi] at h
      simp only at h
      rcases h with ⟨h1, h2⟩ | ⟨h1, h2 | h2 | h2⟩
      · subst h2
        obtain ⟨k, hk⟩ := ih (count + 1)
        refine ⟨k + 1, ?_⟩
        simp only [spliceIds_append, h1, hk]
        simp [List.range'_succ]
      · subst h2
        obtain ⟨k, hk⟩ := ih count
        exact ⟨k, by simp only [spliceIds_append, h1, hk]; simp⟩
      · subst h2; exact ⟨0, by simp [h1]⟩
      · subst h2; exact ⟨0, by simp [h1]⟩

theorem ListenConn_loop_ids (proto : Nat) (addr2 : GoStr) (es : List LCEvent) :
    ∀ count : Nat, ∃ k,
      spliceIds (ListenConn.loop proto addr2 count es).2 = List.range' count k := by
  induction es with
  | nil => intro count; exact ⟨0, by simp [ListenConn.loop, spliceIds]⟩
  | cons e es ih =>
    intro count
    have h := ListenConn_iter_ids proto addr2 count e
    unfold ListenConn.loop
    cases hi : ListenConn.iter proto addr2 count e with
    | mk nx acts =>
      rw [hi] at h
      simp only at h
      rcases h with ⟨h1, h2⟩ | ⟨h1, h2 | h2⟩
      · subst h2
        obtain ⟨k, hk⟩ := ih (count + 1)
        refine ⟨k + 1, ?_⟩
        simp only [spliceIds_append, h1, hk]
        simp [List.range'_succ]
      · subst h2
        obtain ⟨k, hk⟩ := ih count
        exact ⟨k, by simp only [spliceIds_append, h1, hk]; simp⟩
      · subst h2; exact ⟨0, by simp [h1]⟩

theorem ListenListen_loop_ids (es : List LLEvent) :
    ∀ st : LLState, ∃ k,
      spliceIds (ListenListen.loop st es).2 = List.range' st.count k := by
  induction es with
  | nil => intro st; exact ⟨0, by simp [ListenListen.loop, spliceIds]⟩
  | cons e es ih =>
    intro st
    have h := ListenListen_iter_ids st e
    unfold ListenListen.loop
    cases hi : ListenListen.iter st e with
    | mk nx acts =>
      rw [hi] at h
      simp only at h
      rcases h with ⟨h1, st1, h2, h3⟩ | ⟨h1, h2 | ⟨st1, h2, h3⟩⟩
      · subst h2
        obtain ⟨k, hk⟩ := ih st1
        refine ⟨k + 1, ?_⟩
        simp only [spliceIds_append, h1, hk, h3]
        simp [List.range'_succ]
      · subst h2; exact ⟨0, by simp [h1]⟩
      · subst h2
        obtain ⟨k, hk⟩ := ih st1
        exact ⟨k, by simp only [spliceIds_append, h1, hk, h3]; simp⟩

theorem range'_of_eq {l : List Nat} {s k : Nat} (h : l = List.range' s k) :
    l = List.range' s l.length := by
  have : l.length = k := by rw [h]; simp
  rw [this]; exact h

/-- C14. In each of the three drivers, for every sequence of events, the ids
of the pairs handed to `ConnectSock` are 1, 2, 3, ... in order: the n-th pair
is tagged n. An iteration that hands a pair over tags it with the current
`count` and adds one to `count`; every other iteration (failed dial, failed
first read or write, sentinel, timeout, lone arrival, stop) hands no pair over
and leaves `count` as it is. (`count` is a Go `int`; the wrap after 2^63 pairs
is out of reach and not modelled.) -/
theorem pair_ids_consecutive (proto : Nat) (addr1 addr2 : GoStr)
    (ws : List CCWorld) (es1 : List LCEvent) (es2 : List LLEvent)
    (count : Nat) (w : CCWorld) (e1 : LCEvent) (st : LLState) (e2 : LLEvent) :
    spliceIds (ConnConn proto addr1 addr2 ws) =
      List.range' 1 (spliceIds (ConnConn proto addr1 addr2 ws)).length ∧
    spliceIds (ListenConn proto addr1 addr2 es1) =
      List.range' 1 (spliceIds (ListenConn proto addr1 addr2 es1)).length ∧
    spliceIds (ListenListen proto addr1 addr2 es2) =
      List.range' 1 (spliceIds (ListenListen proto addr1 addr2 es2)).length ∧
    ((spliceIds (ConnConn.iter proto addr1 addr2 count w).2 = [count] ∧
        (ConnConn.iter proto addr1 addr2 count w).1 = .next (count + 1)) ∨
      (spliceIds (ConnConn.iter proto addr1 addr2 count w).2 = [] ∧
        ((ConnConn.iter proto addr1 addr2 count w).1 = .next count ∨
         (ConnConn.iter proto addr1 addr2 count w).1 = .returned ∨
         (ConnConn.iter proto addr1 addr2 count w).1 = .crashed))) ∧
    ((spliceIds (ListenConn.iter proto addr2 count e1).2 = [count] ∧
        (ListenConn.iter proto addr2 count e1).1 = some (count + 1)) ∨
      (spliceIds (ListenConn.iter proto addr2 count e1).2 = [] ∧
        ((ListenConn.iter proto addr2 count e1).1 = some count ∨
         (ListenConn.iter proto addr2 count e1).1 = none))) ∧
    ((spliceIds (ListenListen.iter st e2).2 = [st.count] ∧
        ∃ st1, (ListenListen.iter st e2).1 = some st1 ∧ st1.count = st.count + 1) ∨
      (spliceIds (ListenListen.iter st e2).2 = [] ∧
        ((ListenListen.iter st e2).1 = none ∨
         ∃ st1, (ListenListen.iter st e2).1 = some st1 ∧ st1.count = st.count))) := by
  refine ⟨?_, ?_, ?_, ConnConn_iter_ids proto addr1 addr2 count w,
    ListenConn_iter_ids proto addr2 count e1, ListenListen_iter_ids st e2⟩
  · obtain ⟨k, hk⟩ := ConnConn_loop_ids proto addr1 addr2 ws 1
    exact range'_of_eq (by simpa [ConnConn] using hk)
  · obtain ⟨k, hk⟩ := ListenConn_loop_ids proto addr2 es1 1
    refine range'_of_eq (k := k) ?_
    by_cases hp : proto = PORTFORWARD_PROTO_UDP <;>
      simpa [ListenConn, hp, spliceIds, spliceIds_append] using hk
  · obtain ⟨k, hk⟩ := ListenListen_loop_ids es2 ListenListen.init
    refine range'_of_eq (k := k) ?_
    by_cases hp : proto = PORTFORWARD_PROTO_UDP <;>
      simpa [ListenListen, hp, spliceIds, spliceIds_append, ListenListen.init] using hk


/-! ### A failed listener stops the session of `ListenConn` -/

theorem ListenTCP.nil_returns (pc0 pc : ListenerPC) (m : ListenerMeets)
    (h : ListenTCP.step pc0 m = some (pc, some none)) : pc = .returned ∧ m ≠ .quitSeen := by
  cases pc0 <;> cases m <;> simp [ListenTCP.step] at h ⊢ <;> exact h.symm

/-- C11. In a session of `ListenConn` whose channel `stop` has room, when the
listener fails and sends `nil` on `clientc`: the listener has returned; the
iteration of the driver that takes the `nil` does one thing, `stop <- true`
(one value more on `stop`, no dial, no `ConnectSock`, `count` unchanged); in
the session afterwards no step of the listener can be taken, so no client is
pending, while the stop branch can; and the iteration that takes the stop
branch sends one value on `quit` and returns, nothing else. -/
theorem ListenConn_sentinel_stops (proto : Nat) (addr2 : GoStr) (s : LCSession)
    (m : ListenerMeets) (dial : Except GoStr Conn) (pc : ListenerPC)
    (hroom : s.stop < stopCap)
    (hnil : ListenTCP.step s.listener m = some (pc, some none)) :
    pc = .returned ∧
    ListenConn.iter proto addr2 s.count (.client none dial) = (some s.count, [Act.stopSend]) ∧
    LCSession.step proto addr2 s (.listener m dial) =
      .next { count := s.count, stop := s.stop + 1, listener := .returned } [Act.stopSend] ∧
    (∀ m1 dial1, LCSession.step proto addr2
        { count := s.count, stop := s.stop + 1, listener := .returned }
        (.listener m1 dial1) = .notReady) ∧
    LCSession.step proto addr2
        { count := s.count, stop := s.stop + 1, listener := .returned } .stop =
      .returned [Act.quit 1] ∧
    spliceIds ([Act.stopSend] ++ [Act.quit 1]) = [] := by
  obtain ⟨hpc, hq⟩ := ListenTCP.nil_returns _ _ _ hnil
  subst hpc
  refine ⟨rfl, by simp [ListenConn.iter], ?_, ?_, ?_, by simp [spliceIds]⟩
  · simp [LCSession.step, hq, hnil, ListenConn.iter, hroom]
  · intro m1 dial1
    by_cases h1 : m1 = .quitSeen
    · simp [LCSession.step, h1]
    · cases m1 <;> simp [LCSession.step, ListenTCP.step] at h1 ⊢
  · simp [LCSession.step, ListenConn.iter]

/-- Witness of C11: the accept of a running listener fails. -/
theorem ListenConn_sentinel_stops_witness :
    (0 : Nat) < stopCap ∧
    ListenTCP.step ListenerPC.accepting ListenerMeets.acceptFails =
      some (ListenerPC.returned, some none) ∧
    (ListenerPC.returned = ListenerPC.returned ∧
    ListenConn.iter PORTFORWARD_PROTO_TCP (str "10.0.0.2:80") 1 (.client none (.ok 9)) =
      (some 1, [Act.stopSend]) ∧
    LCSession.step PORTFORWARD_PROTO_TCP (str "10.0.0.2:80")
        { count := 1, stop := 0, listener := .accepting }
        (.listener .acceptFails (.ok 9)) =
      .next { count := 1, stop := 0 + 1, listener := .returned } [Act.stopSend] ∧
    (∀ m1 dial1, LCSession.step PORTFORWARD_PROTO_TCP (str "10.0.0.2:80")
        { count := 1, stop := 0 + 1, listener := .returned }
        (.listener m1 dial1) = .notReady) ∧
    LCSession.step PORTFORWARD_PROTO_TCP (str "10.0.0.2:80")
        { count := 1, stop := 0 + 1, listener := .returned } .stop =
      .returned [Act.quit 1] ∧
    spliceIds ([Act.stopSend] ++ [Act.quit 1]) = []) :=
  ⟨by decide, rfl,
   ListenConn_sentinel_stops PORTFORWARD_PROTO_TCP (str "10.0.0.2:80")
     { count := 1, stop := 0, listener := .accepting } .acceptFails (.ok 9) .returned
     (by decide) rfl⟩

/-- A step of a session adds to the budget at most the call of `Shutdown` it is. -/
theorem LCSession.step_budget (proto : Nat) (addr2 : GoStr) (s s1 : LCSession)
    (e : LCSessionEvent) (acts : List Act)
    (h : LCSession.step proto addr2 s e = .next s1 acts) :
    s1.budget ≤ s.budget + shutdowns [e] := by
  cases e with
  | stop =>
    by_cases h0 : s.stop = 0 <;> simp [LCSession.step, h0] at h
  | shutdown =>
    by_cases h0 : s.stop < stopCap
    · simp [LCSession.step, h0] at h
      obtain ⟨h1, _⟩ := h
      subst h1
      simp [LCSession.budget, shutdowns]
      omega
    · simp [LCSession.step, h0] at h
  | listener m dial =>
    obtain ⟨count, stop, pc0⟩ := s
    by_cases hp : proto = PORTFORWARD_PROTO_UDP <;> by_cases hr : stop < stopCap <;>
      cases pc0 <;> cases m <;> cases dial <;>
      simp [LCSession.step, ListenTCP.step, ListenConn.iter, hp, hr] at h <;>
      (obtain ⟨h1, _⟩ := h; subst h1; simp [LCSession.budget, shutdowns])

/-- In every session from the start of `ListenConn`, the channel `stop` holds
at most as many values as `Shutdown` was called while the listener has not
returned, and at most one more afterwards: with at most two calls of
`Shutdown` there is room on `stop` when the listener fails. -/
theorem LCSession.run_budget (proto : Nat) (addr2 : GoStr) (es : List LCSessionEvent) :
    ∀ (s s1 : LCSession) (acts : List Act),
      LCSession.run proto addr2 s es = .next s1 acts →
      s1.budget ≤ s.budget + shutdowns es := by
  induction es with
  | nil =>
    intro s s1 acts h
    simp [LCSession.run] at h
    rw [h.1]; simp [shutdowns]
  | cons e es ih =>
    intro s s1 acts h
    unfold LCSession.run at h
    cases hs : LCSession.step proto addr2 s e with
    | notReady => rw [hs] at h; simp at h
    | blocked => rw [hs] at h; simp at h
    | returned a => rw [hs] at h; simp at h
    | next s2 a =>
      rw [hs] at h
      simp only at h
      cases hr : LCSession.run proto addr2 s2 es with
      | notReady => rw [hr] at h; simp at h
      | blocked => rw [hr] at h; simp at h
      | returned a2 => rw [hr] at h; simp at h
      | next s3 a2 =>
        rw [hr] at h
        simp only [LCOutcome.next.injEq] at h
        obtain ⟨h1, _⟩ := h
        subst h1
        have b1 := LCSession.step_budget proto addr2 s s2 e a hs
        have b2 := ih s2 s3 a2 hr
        have : shutdowns (e :: es) = shutdowns [e] + shutdowns es := by
          cases e <;> simp [shutdowns]
          omega
        omega


/-! ### One established pseudo-connection per peer -/

theorem UDPListener.unique_heapSet {st : UDPListener} (hwf : st.WF) (hk : st.Keyed)
    (hl : st.LiveInTable) (q : Nat) (d0 d1 : UDPDistribute) (h0 : st.heap q = some d0)
    (hR : d1.RAddr = d0.RAddr) (hE : d1.Established = true → d0.Established = true) :
    UDPListener.WF { st with heap := heapSet st.heap q d1 } ∧
    UDPListener.Keyed { st with heap := heapSet st.heap q d1 } ∧
    UDPListener.LiveInTable { st with heap := heapSet st.heap q d1 } := by
  refine ⟨UDPListener.WF_heapSet hwf q d0 d1 h0, ?_, ?_⟩
  · intro k p d hg hd
    rcases heapSet_some hd with ⟨e1, e2⟩ | ⟨_, e2⟩
    · subst e1; subst e2; rw [hR]; exact hk k p d0 hg h0
    · exact hk k p d hg e2
  · intro p d hd he
    rcases heapSet_some hd with ⟨e1, e2⟩ | ⟨_, e2⟩
    · subst e1; subst e2
      have := hl p d0 h0 (hE he)
      rw [hR]; exact this
    · exact hl p d e2 he

theorem UDPDistribute.Read_keeps (d : UDPDistribute) (b : List Nat) :
    (d.Read b).this.RAddr = d.RAddr ∧ (d.Read b).this.Established = d.Established := by
  unfold UDPDistribute.Read
  by_cases he : d.Established = true
  · cases hc : d.Cache <;> simp [he]
  · simp [he]

/-- Every step of the system keeps the three properties of the table. -/
theorem UDP.step_unique {st : UDPListener} (a : UAct) (hwf : st.WF) (hk : st.Keyed)
    (hl : st.LiveInTable) :
    (UDP.step st a).1.WF ∧ (UDP.step st a).1.Keyed ∧ (UDP.step st a).1.LiveInTable := by
  cases a with
  | datagram addr buf =>
    cases hs : st.sending with
    | some x =>
      have : UDP.step st (.datagram addr buf) = (st, []) := by simp [UDP.step, hs]
      rw [this]; exact ⟨hwf, hk, hl⟩
    | none =>
      have hstep : (UDP.step st (.datagram addr buf)).1 = (ListenUDP.recv st addr buf).st := by
        simp [UDP.step, hs]
      rw [hstep]
      rcases ListenUDP.recv_cases st addr buf hwf with
        ⟨q, d, _, hd, _, _, hr⟩ | ⟨q, d, _, _, _, _, hr⟩ | ⟨hc, hr⟩
      · rw [hr]
        exact UDPListener.unique_heapSet hwf hk hl q d _ hd rfl (fun h => h)
      · rw [hr]; exact ⟨hwf, hk, hl⟩
      · rw [hr]
        have hn : st.heap st.next = none := hwf.1 st.next (le_refl _)
        refine ⟨by rw [← hr]; exact ListenUDP.recv_WF st addr buf hwf, ?_, ?_⟩
        · intro k p d hg hd
          simp only [mapGet_mapSet] at hg
          rcases heapSet_some hd with ⟨e1, e2⟩ | ⟨e1, e2⟩
          · subst e2
            by_cases hka : k = addr
            · exact hka.symm
            · simp only [hka, if_false] at hg
              obtain ⟨d1, hd1⟩ := hwf.2 k p hg
              rw [e1, hn] at hd1
              exact absurd hd1 (by simp)
          · by_cases hka : k = addr
            · simp [hka] at hg; exact absurd hg.symm e1
            · simp only [hka, if_false] at hg
              exact hk k p d hg e2
        · intro p d hd he
          simp only [mapGet_mapSet]
          rcases heapSet_some hd with ⟨e1, e2⟩ | ⟨e1, e2⟩
          · subst e2; subst e1; simp
          · have ht := hl p d e2 he
            have hne : d.RAddr ≠ addr := by
              intro ha
              rw [ha] at ht
              rcases hc with hc | ⟨p0, d0, hg0, hd0, he0⟩
              · rw [hc] at ht; exact absurd ht (by simp)
              · rw [hg0] at ht
                have e3 : p0 = p := Option.some.inj ht
                subst e3
                rw [hd0] at e2
                have e4 : d0 = d := Option.some.inj e2
                subst e4
                rw [he0] at he
                exact absurd he (by simp)
            simp only [hne, if_false]
            exact ht
  | resume =>
    cases hs : st.sending with
    | none =>
      have : UDP.step st .resume = (st, []) := by simp [UDP.step, hs]
      rw [this]; exact ⟨hwf, hk, hl⟩
    | some x =>
      obtain ⟨q, buf⟩ := x
      cases hd : st.heap q with
      | none =>
        have : UDP.step st .resume = (st, []) := by
          simp [UDP.step, hs, ListenUDP.resume, hd, enqEvents]
        rw [this]; exact ⟨hwf, hk, hl⟩
      | some d =>
        by_cases hr : d.Cache.length < 16
        · have hstep : UDP.step st .resume =
              ({ st with heap := heapSet st.heap q { d with Cache := d.Cache ++ [buf] },
                         sending := none }, [UEv.enqueued q buf]) := by
            simp [UDP.step, hs, ListenUDP.resume, hd, chanSend, cacheCap, hr, enqEvents]
          rw [hstep]
          exact UDPListener.unique_heapSet hwf hk hl q d _ hd rfl (fun h => h)
        · have hstep : UDP.step st .resume = (st, []) := by
            simp [UDP.step, hs, ListenUDP.resume, hd, chanSend, cacheCap, hr, enqEvents]
          rw [hstep]; exact ⟨hwf, hk, hl⟩
  | read q b =>
    cases hd : st.heap q with
    | none =>
      have : UDP.step st (.read q b) = (st, []) := by simp [UDP.step, hd]
      rw [this]; exact ⟨hwf, hk, hl⟩
    | some d =>
      have hstep : (UDP.step st (.read q b)).1 =
          { st with heap := heapSet st.heap q (d.Read b).this } := by
        simp [UDP.step, hd]
      rw [hstep]
      obtain ⟨h1, h2⟩ := UDPDistribute.Read_keeps d b
      exact UDPListener.unique_heapSet hwf hk hl q d _ hd h1 (fun h => by rw [← h2]; exact h)
  | write q b sock =>
    cases hd : st.heap q with
    | none =>
      have : UDP.step st (.write q b sock) = (st, []) := by simp [UDP.step, hd]
      rw [this]; exact ⟨hwf, hk, hl⟩
    | some d =>
      have hstep : (UDP.step st (.write q b sock)).1 = st := by simp [UDP.step, hd]
      rw [hstep]; exact ⟨hwf, hk, hl⟩
  | close q =>
    cases hd : st.heap q with
    | none =>
      have : UDP.step st (.close q) = (st, []) := by simp [UDP.step, hd]
      rw [this]; exact ⟨hwf, hk, hl⟩
    | some d =>
      have hstep : (UDP.step st (.close q)).1 =
          { st with heap := heapSet st.heap q { d with Established := false } } := by
        simp [UDP.step, hd, UDPDistribute.Close]
      rw [hstep]
      exact UDPListener.unique_heapSet hwf hk hl q d _ hd rfl (fun h => by simp at h)

theorem UDP.run_unique (acts : List UAct) :
    ∀ {st : UDPListener}, st.WF → st.Keyed → st.LiveInTable →
      (UDP.run st acts).1.WF ∧ (UDP.run st acts).1.Keyed ∧
      (UDP.run st acts).1.LiveInTable := by
  induction acts with
  | nil => intro st h1 h2 h3; exact ⟨h1, h2, h3⟩
  | cons a acts ih =>
    intro st h1 h2 h3
    obtain ⟨g1, g2, g3⟩ := UDP.step_unique a h1 h2 h3
    simpa [UDP.run] using ih g1 g2 g3

/-- C13. In every state reached from the start of the listener by steps of
the listener and calls of `Close` (and of `Read` and `Write`) on its
pseudo-connections: an established pseudo-connection is the entry of the table
for its address, so two established pseudo-connections of one address are the
same one; a datagram the listener takes is given to an established
pseudo-connection of the sender's address; and the listener makes a new
pseudo-connection for an address only when every pseudo-connection made for
that address before is closed. -/
theorem demux_one_live_per_peer (serv : Nat) (acts : List UAct) :
    (∀ p d, (UDP.run (ListenUDP.init serv) acts).1.heap p = some d →
      d.Established = true →
      mapGet (UDP.run (ListenUDP.init serv) acts).1.table d.RAddr = some p) ∧
    (∀ p q dp dq, (UDP.run (ListenUDP.init serv) acts).1.heap p = some dp →
      (UDP.run (ListenUDP.init serv) acts).1.heap q = some dq →
      dp.Established = true → dq.Established = true → dp.RAddr = dq.RAddr → p = q) ∧
    (∀ addr buf p,
      (ListenUDP.recv (UDP.run (ListenUDP.init serv) acts).1 addr buf).enqueued = some p →
      ∃ d, (ListenUDP.recv (UDP.run (ListenUDP.init serv) acts).1 addr buf).st.heap p = some d ∧
        d.Established = true ∧ d.RAddr = addr) ∧
    (∀ addr buf,
      (ListenUDP.recv (UDP.run (ListenUDP.init serv) acts).1 addr buf).emitted ≠ none →
      ∀ p d, (UDP.run (ListenUDP.init serv) acts).1.heap p = some d → d.RAddr = addr →
        d.Established = false) := by
  have hinit : (ListenUDP.init serv).Keyed ∧ (ListenUDP.init serv).LiveInTable := by
    constructor
    · intro k p d h; simp [ListenUDP.init, mapGet] at h
    · intro p d h; simp [ListenUDP.init] at h
  obtain ⟨hwf, hk, hl⟩ := UDP.run_unique acts (ListenUDP.init_WF serv) hinit.1 hinit.2
  refine ⟨hl, ?_, ?_, ?_⟩
  · intro p q dp dq hp hq ep eq er
    have h1 := hl p dp hp ep
    have h2 := hl q dq hq eq
    rw [er, h2] at h1
    exact (Option.some.inj h1).symm
  · intro addr buf p he
    rcases ListenUDP.recv_cases _ addr buf hwf with
      ⟨q, d, hg, hd, hest, _, hr⟩ | ⟨q, d, _, _, _, _, hr⟩ | ⟨_, hr⟩
    · rw [hr] at he ⊢
      simp only [Option.some.injEq] at he
      subst he
      exact ⟨_, heapSet_same _ _ _, hest, hk addr q d hg hd⟩
    · rw [hr] at he; simp at he
    · rw [hr] at he ⊢
      simp only [Option.some.injEq] at he
      subst he
      exact ⟨_, heapSet_same _ _ _, rfl, rfl⟩
  · intro addr buf hem p d hp ha
    rcases ListenUDP.recv_cases _ addr buf hwf with
      ⟨q, d0, _, _, _, _, hr⟩ | ⟨q, d0, _, _, _, _, hr⟩ | ⟨hc, _⟩
    · rw [hr] at hem; exact absurd rfl hem
    · rw [hr] at hem; exact absurd rfl hem
    · by_contra hcon
      have he : d.Established = true := by simpa using hcon
      have ht := hl p d hp he
      rw [ha] at ht
      rcases hc with hc | ⟨p0, d0, hg0, hd0, he0⟩
      · rw [hc] at ht; exact absurd ht (by simp)
      · rw [hg0] at ht
        have e3 : p0 = p := Option.some.inj ht
        subst e3
        rw [hd0] at hp
        have e4 : d0 = d := Option.some.inj hp
        subst e4
        rw [he0] at he
        exact absurd he (by simp)


end PortForward
